import Mathlib

/-!
# Verification of the Tableau migration tool

This file is a shallow embedding of `src/tableau_migration.py` (class
`TableauMigrator` and `main`) together with theorems about its
project-hierarchy resolution and migration orchestration.

Modelling conventions:
* Server-side ids (projects, workbooks) are `Nat`; a missing parent is `none`.
* `TargetState` models the target server's project collection. `nextId` stands
  for server-side id assignment on create, `createCount` counts create calls,
  and `events` is the observable trace of side-effecting collaborator calls.
* Python exceptions are modelled as `Option MigErr` results; a `some` error
  short-circuits the enclosing loops exactly where the Python code has no
  `try`/`except`.
* The unbounded `while remaining_projects:` loop is modelled with explicit
  fuel; fuel-sufficiency (`remaining.length + 1` passes are always enough) is
  proved as a theorem.
-/

/-- A source-side project as returned by `list_projects` (TSC `ProjectItem`). -/
structure SourceProject where
  id : Nat
  name : String
  parent_id : Option Nat
deriving DecidableEq

/-- A target-side project record (TSC `ProjectItem` on the target server). -/
structure TargetProject where
  id : Nat
  name : String
  parent_id : Option Nat
deriving DecidableEq

/-- A workbook summary (TSC `WorkbookItem`): id, name, owning project. -/
structure Workbook where
  id : Nat
  name : String
  project_id : Nat
deriving DecidableEq

/-- Observable side-effecting collaborator calls, in issue order. -/
inductive Event where
  | create_project (project_id : Nat)
  | download_workbook (workbook_id : Nat)
  | publish_workbook (workbook_id : Nat) (target_project_id : Nat)
  | remove_file (workbook_id : Nat)
deriving DecidableEq

/-- Errors raised by the migration operations (Python exceptions). -/
inductive MigErr where
  | downloadError (workbook_id : Nat)
  | uploadError (workbook_id : Nat)
  | workbookNotFound (workbook_id : Nat)
  | projectNotFound (project_id : Nat)
  | missingSourceProjectId
deriving DecidableEq

/-- The target server's mutable state: its project collection, the server's
id counter for created projects, a count of issued create calls, and the
event trace of issued side-effecting calls. -/
structure TargetState where
  projects : List TargetProject
  nextId : Nat
  createCount : Nat
  events : List Event
deriving DecidableEq

/-- `event` predicate: project creation. -/
def is_create_event : Event → Bool
  | .create_project _ => true
  | _ => false

/-- `event` predicate: workbook content transfer (download or upload). -/
def is_transfer_event : Event → Bool
  | .download_workbook _ => true
  | .publish_workbook _ _ => true
  | _ => false

/-- Python-dict insertion on an association list: replace the value of an
existing key in place, else append (`project_map[k] = v`). -/
def dictInsert : List (Nat × Nat) → Nat → Nat → List (Nat × Nat)
  | [], k, v => [(k, v)]
  | e :: rest, k, v => if e.fst == k then (k, v) :: rest else e :: dictInsert rest k v

/-- Python-dict lookup on an association list (`project_map.get(k)`,
`k in project_map` is `(dictLookup m k).isSome`). -/
def dictLookup : List (Nat × Nat) → Nat → Option Nat
  | [], _ => none
  | e :: rest, k => if e.fst == k then some e.snd else dictLookup rest k

/-- The keys of an association-list dict, in insertion order. -/
def dict_keys (m : List (Nat × Nat)) : List Nat := m.map Prod.fst

/-- `ensure_project_exists`, server-side step: the `TSC.Pager` query with a
`Name Equals project_name` filter — it filters on name only. -/
def matching_projects (st : TargetState) (project_name : String) : List TargetProject :=
  st.projects.filter (fun project => project.name == project_name)

/-- `ensure_project_exists`, local step: the parent condition checked on each
candidate — `(parent_id is None and project.parent_id is None) or
(parent_id is not None and project.parent_id == parent_id)`. -/
def parent_matches (parent_id : Option Nat) (project : TargetProject) : Bool :=
  (parent_id.isNone && project.parent_id.isNone) ||
  (parent_id.isSome && project.parent_id == parent_id)

/-- The existence check of `ensure_project_exists`: first name-matching
candidate returned by the server whose parent also matches locally. -/
def find_matching (st : TargetState) (project_name : String)
    (parent_id : Option Nat) : Option TargetProject :=
  (matching_projects st project_name).find? (parent_matches parent_id)

/-- `TableauMigrator.ensure_project_exists` (lines 147-170): query target
projects by name, return the first candidate whose parent also matches, else
create a new project with the requested name and parent. -/
def ensure_project_exists (st : TargetState) (project_name : String)
    (parent_id : Option Nat) : TargetProject × TargetState :=
  match find_matching st project_name parent_id with
  | some project => (project, st)
  | none =>
      let new_project : TargetProject :=
        { id := st.nextId, name := project_name, parent_id := parent_id }
      (new_project,
       { projects := st.projects ++ [new_project]
         nextId := st.nextId + 1
         createCount := st.createCount + 1
         events := st.events ++ [Event.create_project st.nextId] })

/-- `migrate_site` first pass (lines 248-251): for every source project with
no parent, look up or create a same-named top-level target project and record
the mapping. -/
def resolveRoots : List SourceProject → List (Nat × Nat) → TargetState →
    List (Nat × Nat) × TargetState
  | [], m, st => (m, st)
  | project :: rest, m, st =>
      match project.parent_id with
      | none =>
          let r := ensure_project_exists st project.name none
          resolveRoots rest (dictInsert m project.id r.1.id) r.2
      | some _ => resolveRoots rest m st

/-- One pass of the `while remaining_projects` loop (lines 257-264): handle
every remaining project whose parent already has a mapping entry; returns the
updated map, target state, and the list of handled projects in order. -/
def resolvePass : List SourceProject → List (Nat × Nat) → TargetState →
    List (Nat × Nat) × TargetState × List SourceProject
  | [], m, st => (m, st, [])
  | project :: rest, m, st =>
      match project.parent_id with
      | some pid =>
          match dictLookup m pid with
          | some target_parent_id =>
              let r := ensure_project_exists st project.name (some target_parent_id)
              let res := resolvePass rest (dictInsert m project.id r.1.id) r.2
              (res.1, res.2.1, project :: res.2.2)
          | none => resolvePass rest m st
      | none => resolvePass rest m st

/-- The `while remaining_projects:` loop (lines 256-272), with explicit fuel:
stop when remaining is empty, or break when a pass handled no project
(returning the unresolved remainder); otherwise drop the handled projects and
iterate. -/
def resolveLoop : Nat → List SourceProject → List (Nat × Nat) → TargetState →
    List (Nat × Nat) × TargetState × List SourceProject
  | 0, remaining, m, st => (m, st, remaining)
  | fuel + 1, remaining, m, st =>
      if remaining.isEmpty then (m, st, remaining)
      else
        let r := resolvePass remaining m st
        if r.2.2.isEmpty then (r.1, r.2.1, remaining)
        else
          resolveLoop fuel (remaining.filter (fun p => !(r.2.2.contains p))) r.1 r.2.1

/-- The hierarchy-resolution phase of `migrate_site` (lines 244-272): root
pass, then the multi-pass child loop. Returns the project map, the target
state, and the unresolved remainder. `remaining.length + 1` passes always
suffice (proved below), so the fuelled loop coincides with the Python
`while` loop. -/
def migrate_site_hierarchy (source_projects : List SourceProject) (st : TargetState) :
    List (Nat × Nat) × TargetState × List SourceProject :=
  let r := resolveRoots source_projects [] st
  let remaining := source_projects.filter (fun p => p.parent_id.isSome)
  resolveLoop (remaining.length + 1) remaining r.1 r.2

/-- The structural-error report logged when a pass handles no project
(line 268): `f"Unable to create project hierarchy for
{len(remaining_projects)} projects"`. -/
def hierarchy_error_report (remaining_projects : List SourceProject) : String :=
  "Unable to create project hierarchy for " ++ toString remaining_projects.length
    ++ " projects"

/-- The structural error surfaced by a site migration: the logged report when
the hierarchy loop ends with unresolved projects, else nothing. -/
def migrate_site_structural_error (source_projects : List SourceProject)
    (st : TargetState) : Option String :=
  let r := migrate_site_hierarchy source_projects st
  if r.2.2.isEmpty then none else some (hierarchy_error_report r.2.2)

/-- The external collaborators of one run: the source server's listings and
the success/failure oracles of the transfer operations. -/
structure SourceEnv where
  source_projects : List SourceProject
  workbooks : List Workbook
  download_ok : Nat → Bool
  upload_ok : Nat → Bool

/-- Per-run state threaded through the content-transfer phase: the target
server state and the set of workbook ids whose staged file currently exists
in the run's temp directory. -/
structure RunState where
  target : TargetState
  staged : List Nat
deriving DecidableEq

/-- Append an issued side-effecting call to the run's trace. -/
def log_event (rs : RunState) (e : Event) : RunState :=
  { rs with target := { rs.target with events := rs.target.events ++ [e] } }

/-- Create the staged file `workbook_{id}.twbx` (overwriting any previous
download of the same workbook): existence-set insertion. -/
def stage_add (staged : List Nat) (workbook_id : Nat) : List Nat :=
  if staged.contains workbook_id then staged else staged ++ [workbook_id]

/-- `TableauMigrator.migrate_workbook` (lines 172-196): download into the
temp directory (raising on failure), fetch the workbook's metadata, publish
into the target project (raising on failure), then remove the staged file.
There is no `try`/`finally`: an error returns immediately with the staging
state as it was at the raise site. -/
def migrate_workbook (env : SourceEnv) (rs : RunState) (workbook_id : Nat)
    (target_project_id : Nat) : RunState × Option MigErr :=
  let rs1 := log_event rs (Event.download_workbook workbook_id)
  if env.download_ok workbook_id then
    let rs2 := { rs1 with staged := stage_add rs1.staged workbook_id }
    match env.workbooks.find? (fun w => w.id == workbook_id) with
    | none => (rs2, some (MigErr.workbookNotFound workbook_id))
    | some _workbook =>
        let rs3 := log_event rs2 (Event.publish_workbook workbook_id target_project_id)
        if env.upload_ok workbook_id then
          let rs4 := { rs3 with staged := rs3.staged.erase workbook_id }
          (log_event rs4 (Event.remove_file workbook_id), none)
        else (rs3, some (MigErr.uploadError workbook_id))
  else (rs1, some (MigErr.downloadError workbook_id))

/-- The `for workbook in workbooks:` loop of `migrate_project` (lines
217-218). There is no `try`/`except`: the first error propagates and the
remaining workbooks are not attempted. -/
def migrate_workbooks_loop (env : SourceEnv) :
    RunState → List Workbook → Nat → RunState × Option MigErr
  | rs, [], _ => (rs, none)
  | rs, workbook :: rest, target_project_id =>
      match migrate_workbook env rs workbook.id target_project_id with
      | (rs', none) => migrate_workbooks_loop env rs' rest target_project_id
      | (rs', some e) => (rs', some e)

/-- `TableauMigrator.migrate_project` (lines 198-220): fetch the source
project, resolve the target project if none was given (look-up-or-create by
the source project's own name and parent), list the project's workbooks,
migrate each in turn. -/
def migrate_project (env : SourceEnv) (rs : RunState) (source_project_id : Nat)
    (target_project_id? : Option Nat) : RunState × Option MigErr :=
  match env.source_projects.find? (fun p => p.id == source_project_id) with
  | none => (rs, some (MigErr.projectNotFound source_project_id))
  | some source_project =>
      let r : Nat × RunState :=
        match target_project_id? with
        | some t => (t, rs)
        | none =>
            let e := ensure_project_exists rs.target source_project.name
              source_project.parent_id
            (e.1.id, { rs with target := e.2 })
      let workbooks := env.workbooks.filter (fun w => w.project_id == source_project_id)
      migrate_workbooks_loop env r.2 workbooks r.1

/-- The `for source_project_id, target_project_id in project_map.items():`
loop of `migrate_site` (lines 275-276). The first error propagates and the
remaining mapping pairs are not attempted. -/
def migrate_projects_loop (env : SourceEnv) :
    RunState → List (Nat × Nat) → RunState × Option MigErr
  | rs, [] => (rs, none)
  | rs, (source_id, target_id) :: rest =>
      match migrate_project env rs source_id (some target_id) with
      | (rs', none) => migrate_projects_loop env rs' rest
      | (rs', some e) => (rs', some e)

/-- The outcome of `migrate_site`: final run state, the propagated error (if
any), the project map built by the hierarchy phase, and its unresolved
remainder. -/
structure SiteResult where
  run : RunState
  error : Option MigErr
  project_map : List (Nat × Nat)
  unresolved : List SourceProject
deriving DecidableEq

/-- `TableauMigrator.migrate_site` (lines 222-278): build the project
hierarchy mapping, then migrate every `(source_id, target_id)` pair of the
mapping in insertion order. -/
def migrate_site (env : SourceEnv) (st : TargetState) : SiteResult :=
  let h := migrate_site_hierarchy env.source_projects st
  let r := migrate_projects_loop env { target := h.2.1, staged := [] } h.1
  { run := r.1, error := r.2, project_map := h.1, unresolved := h.2.2 }

/-- The event trace of a site migration run. -/
def migrate_site_trace (env : SourceEnv) (st : TargetState) : List Event :=
  (migrate_site env st).run.target.events

/-- The CLI actions of `main` (mutually exclusive action group). -/
inductive CliAction where
  | listSites
  | listProjects
  | listWorkbooks
  | migrateWorkbook (workbook_id : Nat) (source_project_id : Option Nat)
      (target_project_id : Option Nat)
  | migrateProject (project_id : Nat) (target_project_id : Option Nat)
  | migrateSite
deriving DecidableEq

/-- The read-only listing actions (`--list-sites`, `--list-projects`,
`--list-workbooks`), tested in `main`'s `finally` block (line 445). -/
def is_listing_action : CliAction → Bool
  | .listSites => true
  | .listProjects => true
  | .listWorkbooks => true
  | _ => false

/-- The per-process observable state of one `main` run: whether the temp
directory created by `TableauMigrator.__init__` still exists, and which
server sessions are currently signed in. -/
structure AppState where
  tempDirExists : Bool
  sourceConnected : Bool
  targetConnected : Bool
deriving DecidableEq

/-- `TableauMigrator.cleanup` (lines 280-295): remove the temp directory if
it exists, sign out of each server that is connected. -/
def cleanup (s : AppState) : AppState :=
  let s1 := if s.tempDirExists then { s with tempDirExists := false } else s
  let s2 := if s1.sourceConnected then { s1 with sourceConnected := false } else s1
  if s2.targetConnected then { s2 with targetConnected := false } else s2

/-- `main`'s `finally` block (lines 443-451): listing actions sign out only
the source session (if connected); every other action runs full `cleanup`. -/
def main_finally (action : CliAction) (s : AppState) : AppState :=
  if is_listing_action action then
    if s.sourceConnected then { s with sourceConnected := false } else s
  else cleanup s

/-- Which servers each action's body connects to before its first possible
failure: listings connect the source only; `--migrate-workbook` with a
missing `--source-project-id` exits before connecting; all other migration
actions connect both servers. -/
def main_connections : CliAction → Bool × Bool
  | .listSites => (true, false)
  | .listProjects => (true, false)
  | .listWorkbooks => (true, false)
  | .migrateWorkbook _ source_project_id _ =>
      if source_project_id.isNone then (false, false) else (true, true)
  | .migrateProject _ _ => (true, true)
  | .migrateSite => (true, true)

/-- The error (exception or `sys.exit(1)`) propagating out of the `try` body
of `main` (lines 395-441) for each action. -/
def main_action_error (env : SourceEnv) (st : TargetState) : CliAction → Option MigErr
  | .listSites => none
  | .listProjects => none
  | .listWorkbooks => none
  | .migrateWorkbook workbook_id source_project_id target_project_id? =>
      match source_project_id with
      | none => some MigErr.missingSourceProjectId
      | some spid =>
          match target_project_id? with
          | some t => (migrate_workbook env { target := st, staged := [] } workbook_id t).2
          | none =>
              match env.source_projects.find? (fun p => p.id == spid) with
              | none => some (MigErr.projectNotFound spid)
              | some source_project =>
                  let e := ensure_project_exists st source_project.name none
                  (migrate_workbook env { target := e.2, staged := [] } workbook_id e.1.id).2
  | .migrateProject project_id target_project_id? =>
      (migrate_project env { target := st, staged := [] } project_id target_project_id?).2
  | .migrateSite => (migrate_site env st).error

/-- One whole run of `main` (lines 298-451): `TableauMigrator.__init__`
creates the temp directory, the action body runs (connecting servers,
possibly raising), and the `finally` block runs regardless. Returns the final
on-disk/session state and the propagated error. -/
def run_main (env : SourceEnv) (st : TargetState) (action : CliAction) :
    AppState × Option MigErr :=
  let conns := main_connections action
  let before : AppState :=
    { tempDirExists := true, sourceConnected := conns.1, targetConnected := conns.2 }
  (main_finally action before, main_action_error env st action)

/-- Target states reachable from `st` by any sequence of
`ensure_project_exists` calls — the only operation that mutates the target
project collection anywhere in the tool. -/
inductive Reach : TargetState → TargetState → Prop
  | refl (st : TargetState) : Reach st st
  | step (st₁ st₂ : TargetState) (n : String) (p : Option Nat) :
      Reach st₁ st₂ → Reach st₁ (ensure_project_exists st₂ n p).2

/-- Parent-before-child order of a mapping `m` w.r.t. the source forest
`sps` and target state `st`: every entry whose source project has a parent
`q` appears strictly after an entry for `q`, and its recorded target project
exists on the target with its parent set to `q`'s mapped target id. -/
def MapOrdered (sps : List SourceProject) (m : List (Nat × Nat))
    (st : TargetState) : Prop :=
  ∀ (i : Nat) (hi : i < m.length), ∀ p ∈ sps, p.id = (m.get ⟨i, hi⟩).1 →
    ∀ q, p.parent_id = some q →
      ∃ tq, (q, tq) ∈ m.take i ∧
        ∃ tp ∈ st.projects, tp.id = (m.get ⟨i, hi⟩).2 ∧ tp.parent_id = some tq

/-- Create-then-record: every mapping entry's target id belongs to a target
project record that exists on the target. -/
def MapRecorded (m : List (Nat × Nat)) (st : TargetState) : Prop :=
  ∀ e ∈ m, ∃ tp ∈ st.projects, tp.id = e.2

/-- Every mapped source project's target id is determined by its
(name, resolved-parent-target) signature, evaluated against the final target
state `stF`. -/
def MapResolved (sps : List SourceProject) (stF : TargetState)
    (m : List (Nat × Nat)) : Prop :=
  ∀ p ∈ sps, ∀ v, dictLookup m p.id = some v →
    (p.parent_id = none → v = (ensure_project_exists stF p.name none).1.id) ∧
    (∀ q, p.parent_id = some q → ∃ tq, dictLookup m q = some tq ∧
        v = (ensure_project_exists stF p.name (some tq)).1.id)

/-! ## Basic properties of `ensure_project_exists` -/

theorem parent_matches_self (p : Option Nat) (proj : TargetProject)
    (h : proj.parent_id = p) : parent_matches p proj = true := by
  cases p <;> simp [parent_matches, h]

theorem ensure_found {st : TargetState} {n : String} {p : Option Nat}
    {proj : TargetProject} (h : find_matching st n p = some proj) :
    ensure_project_exists st n p = (proj, st) := by
  unfold ensure_project_exists
  rw [h]

theorem ensure_not_found {st : TargetState} {n : String} {p : Option Nat}
    (h : find_matching st n p = none) :
    ensure_project_exists st n p =
      (⟨st.nextId, n, p⟩,
       ⟨st.projects ++ [⟨st.nextId, n, p⟩], st.nextId + 1, st.createCount + 1,
        st.events ++ [Event.create_project st.nextId]⟩) := by
  unfold ensure_project_exists
  rw [h]

theorem find_matching_append_found {st : TargetState} {n : String} {p : Option Nat}
    {proj : TargetProject} (h : find_matching st n p = some proj)
    (news : List TargetProject) (ni ci : Nat) (ev : List Event) :
    find_matching ⟨st.projects ++ news, ni, ci, ev⟩ n p = some proj := by
  unfold find_matching matching_projects at h ⊢
  rw [List.filter_append, List.find?_append, h]
  rfl

theorem find_matching_create (st : TargetState) (n : String) (p : Option Nat)
    (h : find_matching st n p = none) :
    find_matching ⟨st.projects ++ [⟨st.nextId, n, p⟩], st.nextId + 1,
        st.createCount + 1, st.events ++ [Event.create_project st.nextId]⟩ n p
      = some ⟨st.nextId, n, p⟩ := by
  unfold find_matching matching_projects at h ⊢
  rw [List.filter_append, List.find?_append, h, Option.none_or]
  have hname : ((⟨st.nextId, n, p⟩ : TargetProject).name == n) = true := by simp
  have hpm : parent_matches p ⟨st.nextId, n, p⟩ = true := parent_matches_self p _ rfl
  simp [List.filter, hname, List.find?, hpm]

theorem ensure_after_self (st : TargetState) (n : String) (p : Option Nat) :
    ensure_project_exists (ensure_project_exists st n p).2 n p
      = ((ensure_project_exists st n p).1, (ensure_project_exists st n p).2) := by
  cases hf : find_matching st n p with
  | some proj =>
      rw [ensure_found hf]
      exact ensure_found hf
  | none =>
      rw [ensure_not_found hf]
      exact ensure_found (find_matching_create st n p hf)

theorem ensure_preserved {s : TargetState} {n : String} {p : Option Nat}
    {proj : TargetProject} (h : ensure_project_exists s n p = (proj, s))
    (n' : String) (p' : Option Nat) :
    ensure_project_exists (ensure_project_exists s n' p').2 n p
      = (proj, (ensure_project_exists s n' p').2) := by
  have hf : find_matching s n p = some proj := by
    cases hf : find_matching s n p with
    | some q =>
        rw [ensure_found hf] at h
        cases h
        rfl
    | none =>
        rw [ensure_not_found hf] at h
        have hlen := congrArg (fun t => t.2.projects.length) h
        simp at hlen
  cases hf' : find_matching s n' p' with
  | some q =>
      rw [ensure_found hf']
      exact ensure_found hf
  | none =>
      rw [ensure_not_found hf']
      exact ensure_found (find_matching_append_found hf _ _ _ _)

theorem reach_trans {a b c : TargetState} (h₁ : Reach a b) (h₂ : Reach b c) :
    Reach a c := by
  induction h₂ with
  | refl => exact h₁
  | step s n p _ ih => exact Reach.step _ _ n p ih

theorem reach_ensure (st : TargetState) (n : String) (p : Option Nat) :
    Reach st (ensure_project_exists st n p).2 :=
  Reach.step st st n p (Reach.refl st)

theorem ensure_stable {st st' : TargetState} {n : String} {p : Option Nat}
    {proj : TargetProject} (h : ensure_project_exists st n p = (proj, st'))
    {st'' : TargetState} (hr : Reach st' st'') :
    ensure_project_exists st'' n p = (proj, st'') := by
  induction hr with
  | refl =>
      have hs := ensure_after_self st n p
      rw [h] at hs
      exact hs
  | step s n' p' _ ih => exact ensure_preserved ih n' p'

/-! ## Reachability through the resolution phase -/

theorem reach_resolveRoots :
    ∀ (sps : List SourceProject) (m : List (Nat × Nat)) (st : TargetState),
      Reach st (resolveRoots sps m st).2
  | [], _, st => Reach.refl st
  | project :: rest, m, st => by
      cases hp : project.parent_id with
      | none =>
          simp only [resolveRoots, hp]
          exact reach_trans (reach_ensure st project.name none)
            (reach_resolveRoots rest _ _)
      | some q =>
          simp only [resolveRoots, hp]
          exact reach_resolveRoots rest m st

theorem reach_resolvePass :
    ∀ (rem : List SourceProject) (m : List (Nat × Nat)) (st : TargetState),
      Reach st (resolvePass rem m st).2.1
  | [], _, st => Reach.refl st
  | project :: rest, m, st => by
      cases hp : project.parent_id with
      | none =>
          simp only [resolvePass, hp]
          exact reach_resolvePass rest m st
      | some pid =>
          cases hl : dictLookup m pid with
          | none =>
              simp only [resolvePass, hp, hl]
              exact reach_resolvePass rest m st
          | some tpid =>
              simp only [resolvePass, hp, hl]
              exact reach_trans (reach_ensure st project.name (some tpid))
                (reach_resolvePass rest _ _)

theorem reach_resolveLoop :
    ∀ (fuel : Nat) (rem : List SourceProject) (m : List (Nat × Nat))
      (st : TargetState), Reach st (resolveLoop fuel rem m st).2.1
  | 0, _, _, st => Reach.refl st
  | fuel + 1, rem, m, st => by
      simp only [resolveLoop]
      by_cases he : rem.isEmpty
      · simp only [he, if_true]
        exact Reach.refl st
      · simp only [he, if_false]
        by_cases hh : (resolvePass rem m st).2.2.isEmpty
        · simp only [hh, if_true]
          exact reach_resolvePass rem m st
        · simp only [hh, if_false]
          exact reach_trans (reach_resolvePass rem m st)
            (reach_resolveLoop fuel _ _ _)

/-! ## Replay: a second resolution run over the final target state -/

theorem resolvePass_nil_handled :
    ∀ (rem : List SourceProject) (m : List (Nat × Nat)) (st : TargetState),
      (resolvePass rem m st).2.2 = [] → resolvePass rem m st = (m, st, [])
  | [], _, _, _ => rfl
  | project :: rest, m, st, h => by
      cases hp : project.parent_id with
      | none =>
          simp only [resolvePass, hp] at h ⊢
          exact resolvePass_nil_handled rest m st h
      | some pid =>
          cases hl : dictLookup m pid with
          | none =>
              simp only [resolvePass, hp, hl] at h ⊢
              exact resolvePass_nil_handled rest m st h
          | some tpid =>
              simp only [resolvePass, hp, hl] at h
              exact absurd h (List.cons_ne_nil _ _)

theorem resolveRoots_replay (stTop : TargetState) :
    ∀ (sps : List SourceProject) (m : List (Nat × Nat)) (st : TargetState),
      Reach (resolveRoots sps m st).2 stTop →
      resolveRoots sps m stTop = ((resolveRoots sps m st).1, stTop)
  | [], _, _, _ => rfl
  | project :: rest, m, st, h => by
      cases hp : project.parent_id with
      | some q =>
          simp only [resolveRoots, hp] at h ⊢
          exact resolveRoots_replay stTop rest m st h
      | none =>
          simp only [resolveRoots, hp] at h ⊢
          have hr2 : Reach (ensure_project_exists st project.name none).2 stTop :=
            reach_trans (reach_resolveRoots rest _ _) h
          have he : ensure_project_exists stTop project.name none
              = ((ensure_project_exists st project.name none).1, stTop) :=
            ensure_stable Prod.mk.eta.symm hr2
          rw [he]
          exact resolveRoots_replay stTop rest _ _ h

theorem resolvePass_replay (stTop : TargetState) :
    ∀ (rem : List SourceProject) (m : List (Nat × Nat)) (st : TargetState),
      Reach (resolvePass rem m st).2.1 stTop →
      resolvePass rem m stTop
        = ((resolvePass rem m st).1, stTop, (resolvePass rem m st).2.2)
  | [], _, _, _ => rfl
  | project :: rest, m, st, h => by
      cases hp : project.parent_id with
      | none =>
          simp only [resolvePass, hp] at h ⊢
          exact resolvePass_replay stTop rest m st h
      | some pid =>
          cases hl : dictLookup m pid with
          | none =>
              simp only [resolvePass, hp, hl] at h ⊢
              exact resolvePass_replay stTop rest m st h
          | some tpid =>
              simp only [resolvePass, hp, hl] at h ⊢
              have hr2 : Reach (ensure_project_exists st project.name (some tpid)).2 stTop :=
                reach_trans (reach_resolvePass rest _ _) h
              have he : ensure_project_exists stTop project.name (some tpid)
                  = ((ensure_project_exists st project.name (some tpid)).1, stTop) :=
                ensure_stable Prod.mk.eta.symm hr2
              rw [he]
              rw [resolvePass_replay stTop rest _ _ h]

theorem resolveLoop_replay (stTop : TargetState) :
    ∀ (fuel : Nat) (rem : List SourceProject) (m : List (Nat × Nat)) (st : TargetState),
      Reach (resolveLoop fuel rem m st).2.1 stTop →
      resolveLoop fuel rem m stTop
        = ((resolveLoop fuel rem m st).1, stTop, (resolveLoop fuel rem m st).2.2)
  | 0, _, _, _, _ => rfl
  | fuel + 1, rem, m, st, h => by
      by_cases he : rem.isEmpty
      · simp only [resolveLoop, he, if_true] at h ⊢
      · simp only [resolveLoop, he, if_false] at h ⊢
        by_cases hh : (resolvePass rem m st).2.2.isEmpty
        · have hnil : (resolvePass rem m st).2.2 = [] := by
            simpa using hh
          have hid := resolvePass_nil_handled rem m st hnil
          simp only [hh, if_true] at h
          rw [hid] at h
          have hpr := resolvePass_replay stTop rem m st (by rw [hid]; exact h)
          rw [hpr, hid]
          simp [hid]
        · simp only [hh, if_false] at h
          have hp2 : Reach (resolvePass rem m st).2.1 stTop :=
            reach_trans (reach_resolveLoop fuel _ _ _) h
          have hpr := resolvePass_replay stTop rem m st hp2
          rw [hpr]
          simp only [hh, if_false]
          exact resolveLoop_replay stTop fuel _ _ _ h

/-- Running the hierarchy-resolution phase a second time over the target
state produced by the first run changes nothing: same mapping, same
unresolved remainder, and the target state (projects, id counter, create
count, event trace) is returned untouched. -/
theorem migrate_site_hierarchy_replay (sps : List SourceProject) (st : TargetState) :
    migrate_site_hierarchy sps (migrate_site_hierarchy sps st).2.1
      = ((migrate_site_hierarchy sps st).1, (migrate_site_hierarchy sps st).2.1,
         (migrate_site_hierarchy sps st).2.2) := by
  unfold migrate_site_hierarchy
  have hroots := resolveRoots_replay
    (resolveLoop ((sps.filter (fun p => p.parent_id.isSome)).length + 1)
      (sps.filter (fun p => p.parent_id.isSome)) (resolveRoots sps [] st).1
      (resolveRoots sps [] st).2).2.1
    sps [] st (reach_resolveLoop _ _ _ _)
  rw [hroots]
  exact resolveLoop_replay _ _ _ _ _ (Reach.refl _)

/-- C3: Hierarchy resolution is idempotent — running the resolution a second
time against the target state materialized by the first run produces the
identical source-to-target mapping, issues zero project-creation calls
(`createCount` unchanged), and in fact returns the whole target state
untouched, because the pre-create existence check matches by (name, parent)
equality. -/
theorem claim_C3_resolution_idempotent (sps : List SourceProject) (st : TargetState) :
    (migrate_site_hierarchy sps (migrate_site_hierarchy sps st).2.1).1
      = (migrate_site_hierarchy sps st).1 ∧
    (migrate_site_hierarchy sps (migrate_site_hierarchy sps st).2.1).2.1.createCount
      = (migrate_site_hierarchy sps st).2.1.createCount ∧
    (migrate_site_hierarchy sps (migrate_site_hierarchy sps st).2.1).2.1
      = (migrate_site_hierarchy sps st).2.1 ∧
    (migrate_site_hierarchy sps (migrate_site_hierarchy sps st).2.1).2.2
      = (migrate_site_hierarchy sps st).2.2 := by
  have h := migrate_site_hierarchy_replay sps st
  refine ⟨?_, ?_, ?_, ?_⟩ <;> rw [h]

/-! ## Termination of the fixed-point loop -/

theorem resolvePass_handled_subset :
    ∀ (rem : List SourceProject) (m : List (Nat × Nat)) (st : TargetState),
      ∀ p ∈ (resolvePass rem m st).2.2, p ∈ rem
  | [], _, _, p, hp => by simp only [resolvePass] at hp; exact absurd hp (List.not_mem_nil p)
  | project :: rest, m, st, p, hp => by
      cases hq : project.parent_id with
      | none =>
          simp only [resolvePass, hq] at hp
          exact List.mem_cons_of_mem _ (resolvePass_handled_subset rest m st p hp)
      | some pid =>
          cases hl : dictLookup m pid with
          | none =>
              simp only [resolvePass, hq, hl] at hp
              exact List.mem_cons_of_mem _ (resolvePass_handled_subset rest m st p hp)
          | some tpid =>
              simp only [resolvePass, hq, hl] at hp
              cases hp with
              | head => exact List.mem_cons_self _ _
              | tail _ hp =>
                  exact List.mem_cons_of_mem _ (resolvePass_handled_subset rest _ _ p hp)

theorem resolveLoop_progress_length (rem : List SourceProject) (m : List (Nat × Nat))
    (st : TargetState) (hh : ¬(resolvePass rem m st).2.2.isEmpty = true) :
    (rem.filter (fun p => !((resolvePass rem m st).2.2.contains p))).length
      < rem.length := by
  rw [List.length_filter_lt_length_iff_exists]
  have hne : (resolvePass rem m st).2.2 ≠ [] := by simpa using hh
  obtain ⟨q, hq⟩ := List.exists_mem_of_ne_nil _ hne
  refine ⟨q, resolvePass_handled_subset rem m st q hq, ?_⟩
  simp [List.elem_iff, hq]

theorem resolveLoop_fuel_sufficient :
    ∀ (fuel : Nat) (rem : List SourceProject) (m : List (Nat × Nat)) (st : TargetState),
      rem.length + 1 ≤ fuel →
      resolveLoop fuel rem m st = resolveLoop (rem.length + 1) rem m st := by
  intro fuel
  induction fuel using Nat.strong_induction_on with
  | _ fuel ih =>
      intro rem m st hle
      cases fuel with
      | zero => omega
      | succ f =>
          by_cases he : rem.isEmpty
          · simp only [resolveLoop, he, if_true]
          · by_cases hh : (resolvePass rem m st).2.2.isEmpty
            · simp only [resolveLoop, he, if_false, hh, if_true]
            · have hlt := resolveLoop_progress_length rem m st hh
              simp only [resolveLoop, he, if_false, hh, if_false]
              have hle' : rem.length ≤ f := by omega
              rw [ih f (by omega) _ _ _ (by omega),
                  ih rem.length (by omega) _ _ _ (by omega)]

/-- C4: For every finite input set of source projects — including
self-parenting nodes, mutual-parent cycles, and dangling parent references —
the multi-pass resolution loop terminates: `remaining.length + 1` passes
always reach the loop's exit (empty remainder or a pass that resolves zero
additional nodes), so any larger pass budget computes the same result. -/
theorem claim_C4_resolution_loop_terminates (rem : List SourceProject)
    (m : List (Nat × Nat)) (st : TargetState) (fuel : Nat)
    (h : rem.length + 1 ≤ fuel) :
    resolveLoop fuel rem m st = resolveLoop (rem.length + 1) rem m st :=
  resolveLoop_fuel_sufficient fuel rem m st h

/-- Witness for C4 on the mutual-parent cycle `A.parent = B, B.parent = A`:
any fuel at least 3 gives the loop's stable result. -/
theorem claim_C4_witness :
    ([(⟨1, "A", some 2⟩ : SourceProject), ⟨2, "B", some 1⟩].length + 1 ≤ 50) ∧
    resolveLoop 50 [⟨1, "A", some 2⟩, ⟨2, "B", some 1⟩] [] ⟨[], 0, 0, []⟩
      = resolveLoop 3 [⟨1, "A", some 2⟩, ⟨2, "B", some 1⟩] [] ⟨[], 0, 0, []⟩ :=
  ⟨by decide,
   claim_C4_resolution_loop_terminates [⟨1, "A", some 2⟩, ⟨2, "B", some 1⟩] []
     ⟨[], 0, 0, []⟩ 50 (by decide)⟩

/-- C5 counterexample: the claim says the structural error report identifies
the set of affected unresolved node ids. It does not: two site migrations
whose unresolved node-id sets differ ({1, 2} versus {3, 4}) produce the
very same report string, which states only the count. -/
theorem claim_C5_counterexample :
    migrate_site_structural_error [⟨1, "A", some 2⟩, ⟨2, "B", some 1⟩] ⟨[], 0, 0, []⟩
      = migrate_site_structural_error [⟨3, "C", some 4⟩, ⟨4, "D", some 3⟩]
          ⟨[], 0, 0, []⟩ ∧
    (migrate_site_hierarchy [⟨1, "A", some 2⟩, ⟨2, "B", some 1⟩]
        ⟨[], 0, 0, []⟩).2.2.map SourceProject.id
      ≠ (migrate_site_hierarchy [⟨3, "C", some 4⟩, ⟨4, "D", some 3⟩]
        ⟨[], 0, 0, []⟩).2.2.map SourceProject.id := by
  exact ⟨by rfl, by decide⟩

/-- C5 amended: when the fixed-point loop ends with unresolved projects
remaining, the structural error report identifies only the NUMBER of
unresolved projects — it is a function of the count alone, not of the node
ids. -/
theorem claim_C5_amended_report_counts_only (r₁ r₂ : List SourceProject)
    (h : r₁.length = r₂.length) :
    hierarchy_error_report r₁ = hierarchy_error_report r₂ := by
  unfold hierarchy_error_report
  rw [h]

/-- Witness for the amended C5 at two concrete unresolved sets of equal
size. -/
theorem claim_C5_amended_witness :
    hierarchy_error_report [⟨1, "A", some 2⟩, ⟨2, "B", some 1⟩]
      = hierarchy_error_report [⟨3, "C", some 4⟩, ⟨4, "D", some 3⟩] :=
  claim_C5_amended_report_counts_only _ _ (by decide)

/-! ## Dictionary lemmas -/

theorem dictLookup_append_some :
    ∀ {m : List (Nat × Nat)} {k v : Nat}, dictLookup m k = some v →
      ∀ (l : List (Nat × Nat)), dictLookup (m ++ l) k = some v
  | [], k, v, h, l => by simp [dictLookup] at h
  | e :: rest, k, v, h, l => by
      simp only [dictLookup] at h
      simp only [List.cons_append, dictLookup]
      by_cases hk : (e.fst == k) = true
      · rw [if_pos hk] at h
        rw [if_pos hk]
        exact h
      · rw [if_neg hk] at h
        rw [if_neg hk]
        exact dictLookup_append_some h l

theorem dictLookup_append_none :
    ∀ {m : List (Nat × Nat)} {k : Nat}, dictLookup m k = none →
      ∀ (l : List (Nat × Nat)), dictLookup (m ++ l) k = dictLookup l k
  | [], _, _, l => by simp
  | e :: rest, k, h, l => by
      simp only [dictLookup] at h
      simp only [List.cons_append, dictLookup]
      by_cases hk : (e.fst == k) = true
      · rw [if_pos hk] at h
        exact absurd h (by simp)
      · rw [if_neg hk] at h
        rw [if_neg hk]
        exact dictLookup_append_none h l

theorem dictLookup_none_of_not_mem_keys :
    ∀ {m : List (Nat × Nat)} {k : Nat}, k ∉ dict_keys m → dictLookup m k = none
  | [], _, _ => rfl
  | e :: rest, k, h => by
      simp only [dict_keys, List.map_cons, List.mem_cons, not_or] at h
      simp only [dictLookup]
      have hne : ¬((e.fst == k) = true) := fun hb => h.1 ((by simpa using hb : e.fst = k).symm)
      rw [if_neg hne]
      exact dictLookup_none_of_not_mem_keys h.2

theorem mem_keys_of_dictLookup_some :
    ∀ {m : List (Nat × Nat)} {k v : Nat}, dictLookup m k = some v → k ∈ dict_keys m
  | [], k, v, h => by simp [dictLookup] at h
  | e :: rest, k, v, h => by
      simp only [dictLookup] at h
      simp only [dict_keys, List.map_cons, List.mem_cons]
      by_cases hk : (e.fst == k) = true
      · left
        exact ((by simpa using hk : e.fst = k)).symm
      · rw [if_neg hk] at h
        exact Or.inr (mem_keys_of_dictLookup_some h)

theorem dictLookup_isSome_of_mem_keys :
    ∀ {m : List (Nat × Nat)} {k : Nat}, k ∈ dict_keys m →
      (dictLookup m k).isSome = true
  | [], k, h => by simp [dict_keys] at h
  | e :: rest, k, h => by
      simp only [dictLookup]
      by_cases hk : (e.fst == k) = true
      · rw [if_pos hk]
        rfl
      · rw [if_neg hk]
        apply dictLookup_isSome_of_mem_keys
        simp only [dict_keys, List.map_cons, List.mem_cons] at h
        rcases h with h | h
        · exact absurd (by simp [h]) hk
        · exact h

theorem dictLookup_mem :
    ∀ {m : List (Nat × Nat)} {k v : Nat}, dictLookup m k = some v → (k, v) ∈ m
  | [], k, v, h => by simp [dictLookup] at h
  | e :: rest, k, v, h => by
      simp only [dictLookup] at h
      by_cases hk : (e.fst == k) = true
      · rw [if_pos hk] at h
        have h1 : e.fst = k := by simpa using hk
        have h2 : e.snd = v := by simpa using h
        have h3 : (k, v) = e := by
          rw [← h1, ← h2]
        rw [h3]
        exact List.mem_cons_self _ _
      · rw [if_neg hk] at h
        exact List.mem_cons_of_mem _ (dictLookup_mem h)

theorem dictInsert_eq_append :
    ∀ {m : List (Nat × Nat)} {k : Nat} (v : Nat), k ∉ dict_keys m →
      dictInsert m k v = m ++ [(k, v)]
  | [], _, v, _ => rfl
  | e :: rest, k, v, h => by
      simp only [dict_keys, List.map_cons, List.mem_cons, not_or] at h
      simp only [dictInsert, List.cons_append]
      have hne : ¬((e.fst == k) = true) := fun hb => h.1 ((by simpa using hb : e.fst = k).symm)
      rw [if_neg hne]
      rw [dictInsert_eq_append v h.2]

theorem dictLookup_singleton_self (k v : Nat) : dictLookup [(k, v)] k = some v := by
  simp [dictLookup]

/-! ## Further properties of `ensure_project_exists` -/

theorem parent_matches_iff (p : Option Nat) (proj : TargetProject) :
    parent_matches p proj = true ↔ proj.parent_id = p := by
  cases p <;> cases hpp : proj.parent_id <;> simp [parent_matches, hpp]

theorem ensure_result_parent (st : TargetState) (n : String) (p : Option Nat) :
    (ensure_project_exists st n p).1.parent_id = p := by
  cases hf : find_matching st n p with
  | some proj =>
      rw [ensure_found hf]
      have := List.find?_some (by simpa [find_matching] using hf)
      exact (parent_matches_iff p proj).mp this
  | none =>
      rw [ensure_not_found hf]

theorem ensure_result_name (st : TargetState) (n : String) (p : Option Nat) :
    (ensure_project_exists st n p).1.name = n := by
  cases hf : find_matching st n p with
  | some proj =>
      rw [ensure_found hf]
      have hf2 : (st.projects.filter (fun project => project.name == n)).find?
          (parent_matches p) = some proj := hf
      have hmem := List.mem_of_find?_eq_some hf2
      have hname := List.of_mem_filter hmem
      simpa using hname
  | none =>
      rw [ensure_not_found hf]

theorem ensure_mem (st : TargetState) (n : String) (p : Option Nat) :
    (ensure_project_exists st n p).1 ∈ (ensure_project_exists st n p).2.projects := by
  cases hf : find_matching st n p with
  | some proj =>
      rw [ensure_found hf]
      have hf2 : (st.projects.filter (fun project => project.name == n)).find?
          (parent_matches p) = some proj := hf
      have hmem := List.mem_of_find?_eq_some hf2
      exact List.mem_of_mem_filter hmem
  | none =>
      rw [ensure_not_found hf]
      exact List.mem_append_right _ (by simp)

theorem ensure_projects_extend (st : TargetState) (n : String) (p : Option Nat) :
    ∃ s, (ensure_project_exists st n p).2.projects = st.projects ++ s := by
  cases hf : find_matching st n p with
  | some proj =>
      rw [ensure_found hf]
      exact ⟨[], by simp⟩
  | none =>
      rw [ensure_not_found hf]
      exact ⟨[⟨st.nextId, n, p⟩], rfl⟩

/-! ## Preservation of the mapping invariants -/

theorem get_append_left' {α : Type} (A B : List α) (i : Nat) (h : i < A.length)
    (hh : i < (A ++ B).length) : (A ++ B).get ⟨i, hh⟩ = A.get ⟨i, h⟩ := by
  simp [List.getElem_append, h]

theorem nodup_id_inj {sps : List SourceProject}
    (h : (sps.map SourceProject.id).Nodup) {p q : SourceProject}
    (hp : p ∈ sps) (hq : q ∈ sps) (he : p.id = q.id) : p = q :=
  List.inj_on_of_nodup_map h hp hq he

theorem mapOrdered_append (sps : List SourceProject) (m : List (Nat × Nat))
    (st st' : TargetState) (hsub : ∃ s, st'.projects = st.projects ++ s)
    (hord : MapOrdered sps m st) (k v : Nat)
    (hnew : ∀ p ∈ sps, p.id = k → ∀ q, p.parent_id = some q →
      ∃ tq, (q, tq) ∈ m ∧ ∃ tp ∈ st'.projects, tp.id = v ∧ tp.parent_id = some tq) :
    MapOrdered sps (m ++ [(k, v)]) st' := by
  intro i hi p hp hpk q hq
  obtain ⟨s, hs⟩ := hsub
  by_cases hil : i < m.length
  · have hget : ((m ++ [(k, v)]).get ⟨i, hi⟩) = m.get ⟨i, hil⟩ :=
      get_append_left' m [(k, v)] i hil hi
    rw [hget] at hpk ⊢
    obtain ⟨tq, htq, tp, htp, hid, hpar⟩ := hord i hil p hp hpk q hq
    refine ⟨tq, ?_, tp, ?_, hid, hpar⟩
    · rw [List.take_append_of_le_length (le_of_lt hil)]
      exact htq
    · rw [hs]
      exact List.mem_append_left _ htp
  · have hlen : i = m.length := by
      have h2 := hi
      simp only [List.length_append, List.length_cons, List.length_nil] at h2
      omega
    subst hlen
    have hget : ((m ++ [(k, v)]).get ⟨m.length, hi⟩) = (k, v) := by
      simp
    rw [hget] at hpk ⊢
    obtain ⟨tq, htq, tp, htp, hid, hpar⟩ := hnew p hp hpk q hq
    refine ⟨tq, ?_, tp, htp, hid, hpar⟩
    rw [List.take_left]
    exact htq

theorem mapRecorded_append (m : List (Nat × Nat)) (st st' : TargetState)
    (hsub : ∃ s, st'.projects = st.projects ++ s) (hrec : MapRecorded m st)
    (k v : Nat) (hv : ∃ tp ∈ st'.projects, tp.id = v) :
    MapRecorded (m ++ [(k, v)]) st' := by
  intro e he
  obtain ⟨s, hs⟩ := hsub
  rcases List.mem_append.mp he with h | h
  · obtain ⟨tp, htp, hid⟩ := hrec e h
    exact ⟨tp, by rw [hs]; exact List.mem_append_left _ htp, hid⟩
  · have : e = (k, v) := by simpa using h
    subst this
    exact hv

theorem mapRecorded_extend (m : List (Nat × Nat)) (st st' : TargetState)
    (hsub : ∃ s, st'.projects = st.projects ++ s) (hrec : MapRecorded m st) :
    MapRecorded m st' := by
  intro e he
  obtain ⟨s, hs⟩ := hsub
  obtain ⟨tp, htp, hid⟩ := hrec e he
  exact ⟨tp, by rw [hs]; exact List.mem_append_left _ htp, hid⟩

theorem mapResolved_append (sps₀ : List SourceProject) (stF : TargetState)
    (m : List (Nat × Nat)) (hres : MapResolved sps₀ stF m)
    (hnodup : (sps₀.map SourceProject.id).Nodup)
    (r : SourceProject) (hr : r ∈ sps₀) (v : Nat)
    (hk : r.id ∉ dict_keys m)
    (hroot : r.parent_id = none → v = (ensure_project_exists stF r.name none).1.id)
    (hchild : ∀ q, r.parent_id = some q → ∃ tq, dictLookup m q = some tq ∧
        v = (ensure_project_exists stF r.name (some tq)).1.id) :
    MapResolved sps₀ stF (m ++ [(r.id, v)]) := by
  intro p hp w hw
  by_cases hmem : p.id ∈ dict_keys m
  · obtain ⟨u, hu⟩ : ∃ u, dictLookup m p.id = some u := by
      have hx := dictLookup_isSome_of_mem_keys hmem
      cases hy : dictLookup m p.id with
      | none => rw [hy] at hx; simp at hx
      | some u => exact ⟨u, rfl⟩
    have hw' : dictLookup (m ++ [(r.id, v)]) p.id = some u := dictLookup_append_some hu _
    have hwu : w = u := by
      rw [hw'] at hw
      exact (Option.some.inj hw).symm
    subst hwu
    obtain ⟨hru, hcu⟩ := hres p hp w hu
    refine ⟨hru, ?_⟩
    intro q hq
    obtain ⟨tq, htq, hval⟩ := hcu q hq
    exact ⟨tq, dictLookup_append_some htq _, hval⟩
  · have hnone : dictLookup m p.id = none := dictLookup_none_of_not_mem_keys hmem
    rw [dictLookup_append_none hnone] at hw
    simp only [dictLookup] at hw
    by_cases hpr : ((r.id : Nat) == p.id) = true
    · rw [if_pos hpr] at hw
      have hid : r.id = p.id := by simpa using hpr
      have hpe : p = r := nodup_id_inj hnodup hp hr hid.symm
      subst hpe
      have hwv : w = v := by simpa using hw.symm
      subst hwv
      refine ⟨hroot, ?_⟩
      intro q hq
      obtain ⟨tq, htq, hval⟩ := hchild q hq
      exact ⟨tq, dictLookup_append_some htq _, hval⟩
    · rw [if_neg hpr] at hw
      exact absurd hw (by simp)

theorem dict_keys_append (m l : List (Nat × Nat)) :
    dict_keys (m ++ l) = dict_keys m ++ dict_keys l := by
  simp [dict_keys]

theorem dict_keys_nodup_append_single (m : List (Nat × Nat)) (k v : Nat)
    (hnk : (dict_keys m).Nodup) (hk : k ∉ dict_keys m) :
    (dict_keys (m ++ [(k, v)])).Nodup := by
  rw [dict_keys_append]
  rw [List.nodup_append]
  refine ⟨hnk, by simp [dict_keys], ?_⟩
  intro a ha hb
  have hak : a = k := by simpa [dict_keys] using hb
  exact hk (hak ▸ ha)

theorem resolveRoots_invariants (sps₀ : List SourceProject) (stF : TargetState)
    (hnodup : (sps₀.map SourceProject.id).Nodup) :
    ∀ (sps : List SourceProject) (m : List (Nat × Nat)) (st : TargetState),
      (∀ p ∈ sps, p ∈ sps₀) →
      (∀ p ∈ sps, p.id ∉ dict_keys m) →
      (sps.map SourceProject.id).Nodup →
      Reach (resolveRoots sps m st).2 stF →
      MapOrdered sps₀ m st →
      MapRecorded m st →
      (dict_keys m).Nodup →
      MapResolved sps₀ stF m →
      MapOrdered sps₀ (resolveRoots sps m st).1 (resolveRoots sps m st).2 ∧
      MapRecorded (resolveRoots sps m st).1 (resolveRoots sps m st).2 ∧
      (dict_keys (resolveRoots sps m st).1).Nodup ∧
      MapResolved sps₀ stF (resolveRoots sps m st).1 ∧
      dict_keys (resolveRoots sps m st).1
        = dict_keys m
          ++ (sps.filter (fun p => p.parent_id.isNone)).map SourceProject.id ∧
      (∀ k v, dictLookup m k = some v →
        dictLookup (resolveRoots sps m st).1 k = some v)
  | [], m, st, _, _, _, _, hord, hrec, hnk, hres => by
      simp only [resolveRoots]
      exact ⟨hord, hrec, hnk, hres, by simp, fun k v h => h⟩
  | project :: rest, m, st, hsub, hfresh, hnd, hreach, hord, hrec, hnk, hres => by
      cases hp : project.parent_id with
      | some q =>
          simp only [resolveRoots, hp] at hreach ⊢
          have hnd' : (rest.map SourceProject.id).Nodup := by
            simp only [List.map_cons] at hnd
            exact hnd.of_cons
          have ih := resolveRoots_invariants sps₀ stF hnodup rest m st
            (fun p hpm => hsub p (List.mem_cons_of_mem _ hpm))
            (fun p hpm => hfresh p (List.mem_cons_of_mem _ hpm))
            hnd' hreach hord hrec hnk hres
          refine ⟨ih.1, ih.2.1, ih.2.2.1, ih.2.2.2.1, ?_, ih.2.2.2.2.2⟩
          rw [ih.2.2.2.2.1]
          simp [List.filter_cons, hp]
      | none =>
          simp only [resolveRoots, hp] at hreach ⊢
          have hfr : project.id ∉ dict_keys m :=
            hfresh project (List.mem_cons_self _ _)
          have hins : dictInsert m project.id
                (ensure_project_exists st project.name none).1.id
              = m ++ [(project.id, (ensure_project_exists st project.name none).1.id)] :=
            dictInsert_eq_append _ hfr
          rw [hins] at hreach ⊢
          have hproj : project ∈ sps₀ := hsub project (List.mem_cons_self _ _)
          have hreach2 : Reach (ensure_project_exists st project.name none).2 stF :=
            reach_trans (reach_resolveRoots rest _ _) hreach
          have hstable : ensure_project_exists stF project.name none
              = ((ensure_project_exists st project.name none).1, stF) :=
            ensure_stable Prod.mk.eta.symm hreach2
          have hext := ensure_projects_extend st project.name none
          have hord' : MapOrdered sps₀
              (m ++ [(project.id, (ensure_project_exists st project.name none).1.id)])
              (ensure_project_exists st project.name none).2 := by
            refine mapOrdered_append sps₀ m st _ hext hord _ _ ?_
            intro p hpm hpid q hq
            have hpe : p = project := nodup_id_inj hnodup hpm hproj hpid
            rw [hpe, hp] at hq
            exact absurd hq (by simp)
          have hrec' : MapRecorded
              (m ++ [(project.id, (ensure_project_exists st project.name none).1.id)])
              (ensure_project_exists st project.name none).2 :=
            mapRecorded_append m st _ hext hrec _ _
              ⟨_, ensure_mem st project.name none, rfl⟩
          have hnk' : (dict_keys
              (m ++ [(project.id,
                (ensure_project_exists st project.name none).1.id)])).Nodup :=
            dict_keys_nodup_append_single m _ _ hnk hfr
          have hres' : MapResolved sps₀ stF
              (m ++ [(project.id, (ensure_project_exists st project.name none).1.id)]) := by
            refine mapResolved_append sps₀ stF m hres hnodup project hproj _ hfr ?_ ?_
            · intro _
              rw [hstable]
            · intro q hq
              rw [hp] at hq
              exact absurd hq (by simp)
          have hfresh' : ∀ p ∈ rest, p.id ∉ dict_keys
              (m ++ [(project.id, (ensure_project_exists st project.name none).1.id)]) := by
            intro p hpm
            rw [dict_keys_append]
            simp only [List.mem_append, not_or]
            refine ⟨hfresh p (List.mem_cons_of_mem _ hpm), ?_⟩
            intro hc
            have he : p.id = project.id := by simpa [dict_keys] using hc
            have hpid : project.id ∈ rest.map SourceProject.id :=
              he ▸ List.mem_map_of_mem _ hpm
            simp only [List.map_cons] at hnd
            exact (List.nodup_cons.mp hnd).1 hpid
          have hnd' : (rest.map SourceProject.id).Nodup := by
            simp only [List.map_cons] at hnd
            exact hnd.of_cons
          have ih := resolveRoots_invariants sps₀ stF hnodup rest
            (m ++ [(project.id, (ensure_project_exists st project.name none).1.id)])
            (ensure_project_exists st project.name none).2
            (fun p hpm => hsub p (List.mem_cons_of_mem _ hpm))
            hfresh' hnd' hreach hord' hrec' hnk' hres'
          refine ⟨ih.1, ih.2.1, ih.2.2.1, ih.2.2.2.1, ?_, ?_⟩
          · rw [ih.2.2.2.2.1, dict_keys_append]
            simp [List.filter_cons, hp, dict_keys]
          · intro k v h
            exact ih.2.2.2.2.2 k v (dictLookup_append_some h _)

theorem resolvePass_invariants (sps₀ : List SourceProject) (stF : TargetState)
    (hnodup : (sps₀.map SourceProject.id).Nodup) :
    ∀ (rem : List SourceProject) (m : List (Nat × Nat)) (st : TargetState),
      (∀ p ∈ rem, p ∈ sps₀) →
      (∀ p ∈ rem, p.id ∉ dict_keys m) →
      (rem.map SourceProject.id).Nodup →
      Reach (resolvePass rem m st).2.1 stF →
      MapOrdered sps₀ m st →
      MapRecorded m st →
      (dict_keys m).Nodup →
      MapResolved sps₀ stF m →
      MapOrdered sps₀ (resolvePass rem m st).1 (resolvePass rem m st).2.1 ∧
      MapRecorded (resolvePass rem m st).1 (resolvePass rem m st).2.1 ∧
      (dict_keys (resolvePass rem m st).1).Nodup ∧
      MapResolved sps₀ stF (resolvePass rem m st).1 ∧
      dict_keys (resolvePass rem m st).1
        = dict_keys m ++ ((resolvePass rem m st).2.2).map SourceProject.id ∧
      (∀ k v, dictLookup m k = some v →
        dictLookup (resolvePass rem m st).1 k = some v)
  | [], m, st, _, _, _, _, hord, hrec, hnk, hres => by
      simp only [resolvePass]
      exact ⟨hord, hrec, hnk, hres, by simp, fun k v h => h⟩
  | project :: rest, m, st, hsub, hfresh, hnd, hreach, hord, hrec, hnk, hres => by
      have hnd' : (rest.map SourceProject.id).Nodup := by
        simp only [List.map_cons] at hnd
        exact hnd.of_cons
      cases hp : project.parent_id with
      | none =>
          simp only [resolvePass, hp] at hreach ⊢
          exact resolvePass_invariants sps₀ stF hnodup rest m st
            (fun p hpm => hsub p (List.mem_cons_of_mem _ hpm))
            (fun p hpm => hfresh p (List.mem_cons_of_mem _ hpm))
            hnd' hreach hord hrec hnk hres
      | some pid =>
          cases hl : dictLookup m pid with
          | none =>
              simp only [resolvePass, hp, hl] at hreach ⊢
              exact resolvePass_invariants sps₀ stF hnodup rest m st
                (fun p hpm => hsub p (List.mem_cons_of_mem _ hpm))
                (fun p hpm => hfresh p (List.mem_cons_of_mem _ hpm))
                hnd' hreach hord hrec hnk hres
          | some tpid =>
              simp only [resolvePass, hp, hl] at hreach ⊢
              have hfr : project.id ∉ dict_keys m :=
                hfresh project (List.mem_cons_self _ _)
              have hins : dictInsert m project.id
                    (ensure_project_exists st project.name (some tpid)).1.id
                  = m ++ [(project.id,
                      (ensure_project_exists st project.name (some tpid)).1.id)] :=
                dictInsert_eq_append _ hfr
              rw [hins] at hreach ⊢
              have hproj : project ∈ sps₀ := hsub project (List.mem_cons_self _ _)
              have hreach2 : Reach (ensure_project_exists st project.name (some tpid)).2
                  stF := reach_trans (reach_resolvePass rest _ _) hreach
              have hstable : ensure_project_exists stF project.name (some tpid)
                  = ((ensure_project_exists st project.name (some tpid)).1, stF) :=
                ensure_stable Prod.mk.eta.symm hreach2
              have hext := ensure_projects_extend st project.name (some tpid)
              have hord' : MapOrdered sps₀
                  (m ++ [(project.id,
                    (ensure_project_exists st project.name (some tpid)).1.id)])
                  (ensure_project_exists st project.name (some tpid)).2 := by
                refine mapOrdered_append sps₀ m st _ hext hord _ _ ?_
                intro p hpm hpid q hq
                have hpe : p = project := nodup_id_inj hnodup hpm hproj hpid
                rw [hpe, hp] at hq
                have hqpid : q = pid := (Option.some.inj hq).symm
                subst hqpid
                refine ⟨tpid, dictLookup_mem hl, _,
                  ensure_mem st project.name (some tpid), rfl, ?_⟩
                exact ensure_result_parent st project.name (some tpid)
              have hrec' : MapRecorded
                  (m ++ [(project.id,
                    (ensure_project_exists st project.name (some tpid)).1.id)])
                  (ensure_project_exists st project.name (some tpid)).2 :=
                mapRecorded_append m st _ hext hrec _ _
                  ⟨_, ensure_mem st project.name (some tpid), rfl⟩
              have hnk' : (dict_keys
                  (m ++ [(project.id,
                    (ensure_project_exists st project.name (some tpid)).1.id)])).Nodup :=
                dict_keys_nodup_append_single m _ _ hnk hfr
              have hres' : MapResolved sps₀ stF
                  (m ++ [(project.id,
                    (ensure_project_exists st project.name (some tpid)).1.id)]) := by
                refine mapResolved_append sps₀ stF m hres hnodup project hproj _ hfr ?_ ?_
                · intro hq
                  rw [hp] at hq
                  exact absurd hq (by simp)
                · intro q hq
                  rw [hp] at hq
                  have hqpid : q = pid := (Option.some.inj hq).symm
                  subst hqpid
                  exact ⟨tpid, hl, by rw [hstable]⟩
              have hfresh' : ∀ p ∈ rest, p.id ∉ dict_keys
                  (m ++ [(project.id,
                    (ensure_project_exists st project.name (some tpid)).1.id)]) := by
                intro p hpm
                rw [dict_keys_append]
                simp only [List.mem_append, not_or]
                refine ⟨hfresh p (List.mem_cons_of_mem _ hpm), ?_⟩
                intro hc
                have he : p.id = project.id := by simpa [dict_keys] using hc
                have hpid : project.id ∈ rest.map SourceProject.id :=
                  he ▸ List.mem_map_of_mem _ hpm
                simp only [List.map_cons] at hnd
                exact (List.nodup_cons.mp hnd).1 hpid
              have ih := resolvePass_invariants sps₀ stF hnodup rest
                (m ++ [(project.id,
                  (ensure_project_exists st project.name (some tpid)).1.id)])
                (ensure_project_exists st project.name (some tpid)).2
                (fun p hpm => hsub p (List.mem_cons_of_mem _ hpm))
                hfresh' hnd' hreach hord' hrec' hnk' hres'
              refine ⟨ih.1, ih.2.1, ih.2.2.1, ih.2.2.2.1, ?_, ?_⟩
              · rw [ih.2.2.2.2.1, dict_keys_append]
                simp [dict_keys]
              · intro k v h
                exact ih.2.2.2.2.2 k v (dictLookup_append_some h _)

theorem resolveLoop_invariants (sps₀ : List SourceProject) (stF : TargetState)
    (hnodup : (sps₀.map SourceProject.id).Nodup) :
    ∀ (fuel : Nat) (rem : List SourceProject) (m : List (Nat × Nat))
      (st : TargetState),
      (∀ p ∈ rem, p ∈ sps₀) →
      (∀ p ∈ rem, p.id ∉ dict_keys m) →
      (rem.map SourceProject.id).Nodup →
      Reach (resolveLoop fuel rem m st).2.1 stF →
      MapOrdered sps₀ m st →
      MapRecorded m st →
      (dict_keys m).Nodup →
      MapResolved sps₀ stF m →
      MapOrdered sps₀ (resolveLoop fuel rem m st).1
        (resolveLoop fuel rem m st).2.1 ∧
      MapRecorded (resolveLoop fuel rem m st).1 (resolveLoop fuel rem m st).2.1 ∧
      (dict_keys (resolveLoop fuel rem m st).1).Nodup ∧
      MapResolved sps₀ stF (resolveLoop fuel rem m st).1 ∧
      (∀ k v, dictLookup m k = some v →
        dictLookup (resolveLoop fuel rem m st).1 k = some v) ∧
      (∀ p ∈ rem, p ∈ (resolveLoop fuel rem m st).2.2 ∨
        ((dictLookup (resolveLoop fuel rem m st).1 p.id).isSome = true))
  | 0, rem, m, st, _, _, _, _, hord, hrec, hnk, hres => by
      simp only [resolveLoop]
      exact ⟨hord, hrec, hnk, hres, fun k v h => h, fun p hp => Or.inl hp⟩
  | fuel + 1, rem, m, st, hsub, hfresh, hnd, hreach, hord, hrec, hnk, hres => by
      by_cases he : rem.isEmpty
      · simp only [resolveLoop, he, if_true] at hreach ⊢
        exact ⟨hord, hrec, hnk, hres, fun k v h => h, fun p hp => Or.inl hp⟩
      · by_cases hh : (resolvePass rem m st).2.2.isEmpty
        · have hnil : (resolvePass rem m st).2.2 = [] := by simpa using hh
          have hid := resolvePass_nil_handled rem m st hnil
          simp only [resolveLoop, he, if_false, hh, if_true, hid] at hreach ⊢
          exact ⟨hord, hrec, hnk, hres, fun k v h => h, fun p hp => Or.inl hp⟩
        · simp only [resolveLoop, he, hh, Bool.false_eq_true, if_false] at hreach ⊢
          have hreach_pass : Reach (resolvePass rem m st).2.1 stF :=
            reach_trans (reach_resolveLoop fuel _ _ _) hreach
          have hpass := resolvePass_invariants sps₀ stF hnodup rem m st hsub hfresh
            hnd hreach_pass hord hrec hnk hres
          have hsub' : ∀ p ∈ rem.filter
              (fun p => !((resolvePass rem m st).2.2.contains p)), p ∈ sps₀ :=
            fun p hp => hsub p (List.mem_of_mem_filter hp)
          have hfresh' : ∀ p ∈ rem.filter
              (fun p => !((resolvePass rem m st).2.2.contains p)),
              p.id ∉ dict_keys (resolvePass rem m st).1 := by
            intro p hp
            have hpr : p ∈ rem := List.mem_of_mem_filter hp
            have hpf := List.of_mem_filter hp
            have hpnh : p ∉ (resolvePass rem m st).2.2 := by
              intro hc
              simp [List.elem_iff, hc] at hpf
            rw [hpass.2.2.2.2.1, List.mem_append]
            rintro (hc | hc)
            · exact hfresh p hpr hc
            · obtain ⟨h2, hh2, hid2⟩ := List.mem_map.mp hc
              have hh2r : h2 ∈ rem := resolvePass_handled_subset rem m st h2 hh2
              have : h2 = p := List.inj_on_of_nodup_map hnd hh2r hpr hid2
              exact hpnh (this ▸ hh2)
          have hnd' : ((rem.filter
              (fun p => !((resolvePass rem m st).2.2.contains p))).map
                SourceProject.id).Nodup :=
            ((rem.filter_sublist).map SourceProject.id).nodup hnd
          have ih := resolveLoop_invariants sps₀ stF hnodup fuel
            (rem.filter (fun p => !((resolvePass rem m st).2.2.contains p)))
            (resolvePass rem m st).1 (resolvePass rem m st).2.1
            hsub' hfresh' hnd' hreach hpass.1 hpass.2.1 hpass.2.2.1 hpass.2.2.2.1
          refine ⟨ih.1, ih.2.1, ih.2.2.1, ih.2.2.2.1, ?_, ?_⟩
          · intro k v h
            exact ih.2.2.2.2.1 k v (hpass.2.2.2.2.2 k v h)
          · intro p hp
            by_cases hcp : p ∈ (resolvePass rem m st).2.2
            · right
              have hkm : p.id ∈ dict_keys (resolvePass rem m st).1 := by
                rw [hpass.2.2.2.2.1, List.mem_append]
                exact Or.inr (List.mem_map_of_mem _ hcp)
              obtain ⟨u, hu⟩ : ∃ u, dictLookup (resolvePass rem m st).1 p.id
                  = some u := by
                have hx := dictLookup_isSome_of_mem_keys hkm
                cases hy : dictLookup (resolvePass rem m st).1 p.id with
                | none => rw [hy] at hx; simp at hx
                | some u => exact ⟨u, rfl⟩
              rw [ih.2.2.2.2.1 p.id u hu]
              rfl
            · have hpf : p ∈ rem.filter
                  (fun p => !((resolvePass rem m st).2.2.contains p)) :=
                List.mem_filter_of_mem hp (by simp [List.elem_iff, hcp])
              exact ih.2.2.2.2.2 p hpf

theorem resolveLoop_succ_empty (fuel : Nat) (rem : List SourceProject)
    (m : List (Nat × Nat)) (st : TargetState) (he : rem.isEmpty = true) :
    resolveLoop (fuel + 1) rem m st = (m, st, rem) := by
  simp only [resolveLoop, he, if_true]

theorem resolveLoop_succ_no_progress (fuel : Nat) (rem : List SourceProject)
    (m : List (Nat × Nat)) (st : TargetState) (he : ¬rem.isEmpty = true)
    (hh : (resolvePass rem m st).2.2.isEmpty = true) :
    resolveLoop (fuel + 1) rem m st
      = ((resolvePass rem m st).1, (resolvePass rem m st).2.1, rem) := by
  simp only [resolveLoop, he, hh, Bool.false_eq_true, if_false, if_true]

theorem resolveLoop_succ_progress (fuel : Nat) (rem : List SourceProject)
    (m : List (Nat × Nat)) (st : TargetState) (he : ¬rem.isEmpty = true)
    (hh : ¬(resolvePass rem m st).2.2.isEmpty = true) :
    resolveLoop (fuel + 1) rem m st
      = resolveLoop fuel
          (rem.filter (fun p => !((resolvePass rem m st).2.2.contains p)))
          (resolvePass rem m st).1 (resolvePass rem m st).2.1 := by
  simp only [resolveLoop, he, hh, Bool.false_eq_true, if_false]

theorem resolvePass_none_handled_unresolved :
    ∀ (rem : List SourceProject) (m : List (Nat × Nat)) (st : TargetState),
      (resolvePass rem m st).2.2 = [] →
      ∀ p ∈ rem, ∀ q, p.parent_id = some q → dictLookup m q = none
  | [], _, _, _, p, hp => by simp at hp
  | project :: rest, m, st, h, p, hp => by
      cases hq : project.parent_id with
      | none =>
          simp only [resolvePass, hq] at h
          intro q hpq
          rcases List.mem_cons.mp hp with rfl | hpm
          · rw [hq] at hpq
            exact absurd hpq (by simp)
          · exact resolvePass_none_handled_unresolved rest m st h p hpm q hpq
      | some pid =>
          cases hl : dictLookup m pid with
          | some tpid =>
              simp only [resolvePass, hq, hl] at h
              exact absurd h (List.cons_ne_nil _ _)
          | none =>
              simp only [resolvePass, hq, hl] at h
              intro q hpq
              rcases List.mem_cons.mp hp with rfl | hpm
              · rw [hq] at hpq
                have hqp := Option.some.inj hpq
                subst hqp
                exact hl
              · exact resolvePass_none_handled_unresolved rest m st h p hpm q hpq

theorem resolveLoop_final_unresolved :
    ∀ (fuel : Nat) (rem : List SourceProject) (m : List (Nat × Nat))
      (st : TargetState),
      rem.length + 1 ≤ fuel →
      ∀ p ∈ (resolveLoop fuel rem m st).2.2, ∀ q, p.parent_id = some q →
        dictLookup (resolveLoop fuel rem m st).1 q = none := by
  intro fuel
  induction fuel using Nat.strong_induction_on with
  | _ fuel ih =>
      intro rem m st hle p hp q hq
      cases fuel with
      | zero => omega
      | succ f =>
          by_cases he : rem.isEmpty
          · rw [resolveLoop_succ_empty f rem m st he] at hp
            have hnil : rem = [] := by simpa using he
            rw [hnil] at hp
            simp at hp
          · by_cases hh : (resolvePass rem m st).2.2.isEmpty
            · have hnil : (resolvePass rem m st).2.2 = [] := by simpa using hh
              have hid := resolvePass_nil_handled rem m st hnil
              rw [resolveLoop_succ_no_progress f rem m st he hh, hid] at hp ⊢
              exact resolvePass_none_handled_unresolved rem m st hnil p hp q hq
            · have hlt := resolveLoop_progress_length rem m st hh
              rw [resolveLoop_succ_progress f rem m st he hh] at hp ⊢
              exact ih f (by omega) _ _ _ (by omega) p hp q hq

theorem migrate_site_hierarchy_def (sps : List SourceProject) (st : TargetState) :
    migrate_site_hierarchy sps st
      = resolveLoop ((sps.filter (fun p => p.parent_id.isSome)).length + 1)
          (sps.filter (fun p => p.parent_id.isSome))
          (resolveRoots sps [] st).1 (resolveRoots sps [] st).2 := rfl

theorem migrate_site_hierarchy_unresolved (sps : List SourceProject)
    (st : TargetState) :
    ∀ p ∈ (migrate_site_hierarchy sps st).2.2, ∀ q, p.parent_id = some q →
      dictLookup (migrate_site_hierarchy sps st).1 q = none := by
  rw [migrate_site_hierarchy_def]
  exact resolveLoop_final_unresolved _ _ _ _ (le_refl _)

theorem migrate_site_hierarchy_invariants (sps : List SourceProject)
    (st : TargetState) (hnodup : (sps.map SourceProject.id).Nodup) :
    MapOrdered sps (migrate_site_hierarchy sps st).1
      (migrate_site_hierarchy sps st).2.1 ∧
    MapRecorded (migrate_site_hierarchy sps st).1
      (migrate_site_hierarchy sps st).2.1 ∧
    (dict_keys (migrate_site_hierarchy sps st).1).Nodup ∧
    MapResolved sps (migrate_site_hierarchy sps st).2.1
      (migrate_site_hierarchy sps st).1 ∧
    (∀ p ∈ sps, p.parent_id = none →
      (dictLookup (migrate_site_hierarchy sps st).1 p.id).isSome = true) ∧
    (∀ p ∈ sps, ∀ q, p.parent_id = some q →
      p ∈ (migrate_site_hierarchy sps st).2.2 ∨
      (dictLookup (migrate_site_hierarchy sps st).1 p.id).isSome = true) := by
  rw [migrate_site_hierarchy_def]
  have hroots := resolveRoots_invariants sps
    (resolveLoop ((sps.filter (fun p => p.parent_id.isSome)).length + 1)
      (sps.filter (fun p => p.parent_id.isSome))
      (resolveRoots sps [] st).1 (resolveRoots sps [] st).2).2.1
    hnodup sps [] st
    (fun p hp => hp)
    (fun p _ => by simp [dict_keys])
    hnodup
    (reach_resolveLoop _ _ _ _)
    (fun i hi => absurd hi (by simp))
    (fun e he => absurd he (List.not_mem_nil e))
    (by simp [dict_keys])
    (fun p _ v hv => absurd hv (by simp [dictLookup]))
  have hkeys := hroots.2.2.2.2.1
  have hfreshloop : ∀ p ∈ sps.filter (fun p => p.parent_id.isSome),
      p.id ∉ dict_keys (resolveRoots sps [] st).1 := by
    intro p hp hc
    rw [hkeys] at hc
    simp only [dict_keys, List.map_nil, List.nil_append] at hc
    obtain ⟨r, hr, hrid⟩ := List.mem_map.mp hc
    have hrs : r ∈ sps := List.mem_of_mem_filter hr
    have hps : p ∈ sps := List.mem_of_mem_filter hp
    have hre : r = p := List.inj_on_of_nodup_map hnodup hrs hps hrid
    have hn1 := List.of_mem_filter hr
    have hn2 := List.of_mem_filter hp
    rw [hre] at hn1
    rw [Option.isNone_iff_eq_none] at hn1
    rw [hn1] at hn2
    simp at hn2
  have hloop := resolveLoop_invariants sps
    (resolveLoop ((sps.filter (fun p => p.parent_id.isSome)).length + 1)
      (sps.filter (fun p => p.parent_id.isSome))
      (resolveRoots sps [] st).1 (resolveRoots sps [] st).2).2.1
    hnodup ((sps.filter (fun p => p.parent_id.isSome)).length + 1)
    (sps.filter (fun p => p.parent_id.isSome))
    (resolveRoots sps [] st).1 (resolveRoots sps [] st).2
    (fun p hp => List.mem_of_mem_filter hp)
    hfreshloop
    (((sps.filter_sublist).map SourceProject.id).nodup hnodup)
    (Reach.refl _)
    hroots.1 hroots.2.1 hroots.2.2.1 hroots.2.2.2.1
  refine ⟨hloop.1, hloop.2.1, hloop.2.2.1, hloop.2.2.2.1, ?_, ?_⟩
  · intro p hp hroot
    have hpin : p ∈ sps.filter (fun p => p.parent_id.isNone) :=
      List.mem_filter_of_mem hp (by simp [hroot])
    have hkm : p.id ∈ dict_keys (resolveRoots sps [] st).1 := by
      rw [hkeys]
      simp only [dict_keys, List.map_nil, List.nil_append]
      exact List.mem_map_of_mem _ hpin
    obtain ⟨u, hu⟩ : ∃ u, dictLookup (resolveRoots sps [] st).1 p.id = some u := by
      have hx := dictLookup_isSome_of_mem_keys hkm
      cases hy : dictLookup (resolveRoots sps [] st).1 p.id with
      | none => rw [hy] at hx; simp at hx
      | some u => exact ⟨u, rfl⟩
    rw [hloop.2.2.2.2.1 p.id u hu]
    rfl
  · intro p hp q hq
    have hpin : p ∈ sps.filter (fun p => p.parent_id.isSome) :=
      List.mem_filter_of_mem hp (by simp [hq])
    exact hloop.2.2.2.2.2 p hpin

/-- C6: Parent-before-child ordering. In the project mapping built by a site
migration, every entry whose source project has a parent `q` is recorded
strictly after an entry for `q`, its target project exists on the target
with its parent set to `q`'s mapped target id (so the child was created or
found under the parent's already-resolved target id), and every mapping
entry's target id corresponds to a target project record that exists on the
target ("create-then-record"). -/
theorem claim_C6_parent_before_child (sps : List SourceProject) (st : TargetState)
    (hnodup : (sps.map SourceProject.id).Nodup) :
    MapOrdered sps (migrate_site_hierarchy sps st).1
      (migrate_site_hierarchy sps st).2.1 ∧
    MapRecorded (migrate_site_hierarchy sps st).1
      (migrate_site_hierarchy sps st).2.1 :=
  ⟨(migrate_site_hierarchy_invariants sps st hnodup).1,
   (migrate_site_hierarchy_invariants sps st hnodup).2.1⟩

/-- Witness for C6 on the forest Eng(1, root) / Data(2, parent 1). -/
theorem claim_C6_witness :
    (([⟨1, "Eng", none⟩, ⟨2, "Data", some 1⟩] : List SourceProject).map
        SourceProject.id).Nodup ∧
    (MapOrdered [⟨1, "Eng", none⟩, ⟨2, "Data", some 1⟩]
        (migrate_site_hierarchy [⟨1, "Eng", none⟩, ⟨2, "Data", some 1⟩]
          ⟨[], 0, 0, []⟩).1
        (migrate_site_hierarchy [⟨1, "Eng", none⟩, ⟨2, "Data", some 1⟩]
          ⟨[], 0, 0, []⟩).2.1 ∧
      MapRecorded
        (migrate_site_hierarchy [⟨1, "Eng", none⟩, ⟨2, "Data", some 1⟩]
          ⟨[], 0, 0, []⟩).1
        (migrate_site_hierarchy [⟨1, "Eng", none⟩, ⟨2, "Data", some 1⟩]
          ⟨[], 0, 0, []⟩).2.1) :=
  ⟨by decide, claim_C6_parent_before_child _ _ (by decide)⟩

/-- C7: Name-based collapsing. Any two source projects with the same name
and the same resolved parent (both roots, or parents mapped to the same
target id) are both mapped, to one and the same target project id: the
first occurrence creates (or finds) the target project and the second
reuses it via the pre-create (name, parent) existence check. -/
theorem claim_C7_name_collapsing (sps : List SourceProject) (st : TargetState)
    (hnodup : (sps.map SourceProject.id).Nodup)
    (p₁ p₂ : SourceProject) (h₁ : p₁ ∈ sps) (h₂ : p₂ ∈ sps)
    (hname : p₁.name = p₂.name)
    (hpar : (p₁.parent_id = none ∧ p₂.parent_id = none) ∨
      (∃ q₁ q₂ tq, p₁.parent_id = some q₁ ∧ p₂.parent_id = some q₂ ∧
        dictLookup (migrate_site_hierarchy sps st).1 q₁ = some tq ∧
        dictLookup (migrate_site_hierarchy sps st).1 q₂ = some tq)) :
    ∃ t, dictLookup (migrate_site_hierarchy sps st).1 p₁.id = some t ∧
      dictLookup (migrate_site_hierarchy sps st).1 p₂.id = some t := by
  have hinv := migrate_site_hierarchy_invariants sps st hnodup
  rcases hpar with ⟨hr₁, hr₂⟩ | ⟨q₁, q₂, tq, hq₁, hq₂, hl₁, hl₂⟩
  · have hs₁ := hinv.2.2.2.2.1 p₁ h₁ hr₁
    have hs₂ := hinv.2.2.2.2.1 p₂ h₂ hr₂
    obtain ⟨v₁, hv₁⟩ := Option.isSome_iff_exists.mp hs₁
    obtain ⟨v₂, hv₂⟩ := Option.isSome_iff_exists.mp hs₂
    have hc₁ := (hinv.2.2.2.1 p₁ h₁ v₁ hv₁).1 hr₁
    have hc₂ := (hinv.2.2.2.1 p₂ h₂ v₂ hv₂).1 hr₂
    refine ⟨v₁, hv₁, ?_⟩
    rw [hv₂, hc₁, hc₂, hname]
  · have hm₁ : (dictLookup (migrate_site_hierarchy sps st).1 p₁.id).isSome
        = true := by
      rcases hinv.2.2.2.2.2 p₁ h₁ q₁ hq₁ with hrem | hs
      · have := migrate_site_hierarchy_unresolved sps st p₁ hrem q₁ hq₁
        rw [hl₁] at this
        exact absurd this (by simp)
      · exact hs
    have hm₂ : (dictLookup (migrate_site_hierarchy sps st).1 p₂.id).isSome
        = true := by
      rcases hinv.2.2.2.2.2 p₂ h₂ q₂ hq₂ with hrem | hs
      · have := migrate_site_hierarchy_unresolved sps st p₂ hrem q₂ hq₂
        rw [hl₂] at this
        exact absurd this (by simp)
      · exact hs
    obtain ⟨v₁, hv₁⟩ := Option.isSome_iff_exists.mp hm₁
    obtain ⟨v₂, hv₂⟩ := Option.isSome_iff_exists.mp hm₂
    obtain ⟨tq₁, htq₁, hval₁⟩ := (hinv.2.2.2.1 p₁ h₁ v₁ hv₁).2 q₁ hq₁
    obtain ⟨tq₂, htq₂, hval₂⟩ := (hinv.2.2.2.1 p₂ h₂ v₂ hv₂).2 q₂ hq₂
    have htq₁e : tq₁ = tq := by
      rw [hl₁] at htq₁
      exact (Option.some.inj htq₁).symm
    have htq₂e : tq₂ = tq := by
      rw [hl₂] at htq₂
      exact (Option.some.inj htq₂).symm
    subst htq₁e
    subst htq₂e
    refine ⟨v₁, hv₁, ?_⟩
    rw [hv₂, hval₁, hval₂, hname]

/-- Witness for C7: two root projects both named "Sales" are mapped to one
and the same target project id. -/
theorem claim_C7_witness :
    ∃ t, dictLookup (migrate_site_hierarchy
        [⟨1, "Sales", none⟩, ⟨2, "Sales", none⟩] ⟨[], 0, 0, []⟩).1 1 = some t ∧
      dictLookup (migrate_site_hierarchy
        [⟨1, "Sales", none⟩, ⟨2, "Sales", none⟩] ⟨[], 0, 0, []⟩).1 2 = some t :=
  claim_C7_name_collapsing [⟨1, "Sales", none⟩, ⟨2, "Sales", none⟩] ⟨[], 0, 0, []⟩
    (by decide) ⟨1, "Sales", none⟩ ⟨2, "Sales", none⟩ (by decide) (by decide) rfl
    (Or.inl ⟨rfl, rfl⟩)

/-- C10: In the look-up-or-create operation, the server query filters on
name only and the parent condition is checked locally: composing them equals
taking the first project satisfying BOTH name and parent equality, where
`none` matches only `none`; reuse returns exactly such a first candidate
(so a same-named project under a different parent is never reused), and
when no candidate satisfies both, a new project is created under the
requested parent even though same-named projects exist elsewhere. -/
theorem claim_C10_existence_check (st : TargetState) (project_name : String)
    (parent_id : Option Nat) :
    (find_matching st project_name parent_id
        = st.projects.find?
            (fun pr => pr.name == project_name && parent_matches parent_id pr)) ∧
    (∀ pr : TargetProject,
      parent_matches parent_id pr = true ↔ pr.parent_id = parent_id) ∧
    (∀ proj, find_matching st project_name parent_id = some proj →
        proj ∈ st.projects ∧ proj.name = project_name ∧
        proj.parent_id = parent_id ∧
        ensure_project_exists st project_name parent_id = (proj, st)) ∧
    (find_matching st project_name parent_id = none →
        (ensure_project_exists st project_name parent_id).1.parent_id = parent_id ∧
        (ensure_project_exists st project_name parent_id).1.name = project_name ∧
        (ensure_project_exists st project_name parent_id).2.projects
          = st.projects ++ [(ensure_project_exists st project_name parent_id).1]) := by
  refine ⟨?_, parent_matches_iff parent_id, ?_, ?_⟩
  · unfold find_matching matching_projects
    rw [List.find?_filter]
    congr 1
    funext pr
    cases h1 : (pr.name == project_name) <;>
      cases h2 : parent_matches parent_id pr <;> simp [h1, h2]
  · intro proj hf
    have hf2 : (st.projects.filter
        (fun project => project.name == project_name)).find?
        (parent_matches parent_id) = some proj := hf
    have hmem := List.mem_of_find?_eq_some hf2
    refine ⟨List.mem_of_mem_filter hmem, by simpa using List.of_mem_filter hmem,
      (parent_matches_iff parent_id proj).mp (List.find?_some hf2),
      ensure_found hf⟩
  · intro hf
    rw [ensure_not_found hf]
    exact ⟨rfl, rfl, rfl⟩

/-- Witness for C10: a target holding a same-named project under a
different parent (`"A"` under parent 5) does not satisfy the root request
`("A", none)`, so a fresh root project named "A" is created alongside it. -/
theorem claim_C10_witness :
    (ensure_project_exists ⟨[⟨7, "A", some 5⟩], 9, 0, []⟩ "A" none).1.parent_id
        = none ∧
    (ensure_project_exists ⟨[⟨7, "A", some 5⟩], 9, 0, []⟩ "A" none).1.name = "A" ∧
    (ensure_project_exists ⟨[⟨7, "A", some 5⟩], 9, 0, []⟩ "A" none).2.projects
      = [⟨7, "A", some 5⟩]
        ++ [(ensure_project_exists ⟨[⟨7, "A", some 5⟩], 9, 0, []⟩ "A" none).1] :=
  (claim_C10_existence_check ⟨[⟨7, "A", some 5⟩], 9, 0, []⟩ "A" none).2.2.2
    (by decide)

/-- C2 counterexample: the claim says the staged local file is released on
every exit path. It is not: after an upload/publish failure for workbook 10
the operation returns with the staged file still present (`staged = [10]`)
alongside the error naming the item. -/
theorem claim_C2_counterexample :
    (migrate_workbook
        ⟨[⟨1, "P", none⟩], [⟨10, "w1", 1⟩], fun _ => true, fun _ => false⟩
        ⟨⟨[], 0, 0, []⟩, []⟩ 10 7).1.staged = [10] ∧
    (migrate_workbook
        ⟨[⟨1, "P", none⟩], [⟨10, "w1", 1⟩], fun _ => true, fun _ => false⟩
        ⟨⟨[], 0, 0, []⟩, []⟩ 10 7).2 = some (MigErr.uploadError 10) := by
  exact ⟨rfl, rfl⟩

/-- C2 amended: the staged file is removed before returning only on the
success path; after an upload/publish failure the operation surfaces an
error naming the item with the staged file still present (it is removed
only later, by run-level cleanup of the whole temp directory). -/
theorem claim_C2_amended_cleanup_on_success_only (env : SourceEnv)
    (rs : RunState) (workbook_id target_project_id : Nat) :
    ((migrate_workbook env rs workbook_id target_project_id).2 = none →
      workbook_id ∉ rs.staged →
      (migrate_workbook env rs workbook_id target_project_id).1.staged
        = rs.staged) ∧
    (env.download_ok workbook_id = true →
      (env.workbooks.find? (fun w => w.id == workbook_id)).isSome = true →
      env.upload_ok workbook_id = false →
      workbook_id ∈ (migrate_workbook env rs workbook_id target_project_id).1.staged ∧
      (migrate_workbook env rs workbook_id target_project_id).2
        = some (MigErr.uploadError workbook_id)) := by
  constructor
  · intro hok hnst
    by_cases hd : env.download_ok workbook_id = true
    · cases hfind : env.workbooks.find? (fun w => w.id == workbook_id) with
      | none =>
          simp [migrate_workbook, log_event, hd, hfind] at hok
      | some wb =>
          by_cases hu : env.upload_ok workbook_id = true
          · simp only [migrate_workbook, log_event, hd, if_true, hfind, hu]
            simp only [stage_add]
            rw [if_neg (by simpa using hnst)]
            rw [List.erase_append_right _ hnst]
            simp
          · simp [migrate_workbook, log_event, hd, hfind, hu] at hok
    · simp [migrate_workbook, log_event, hd] at hok
  · intro hd hfs hu
    obtain ⟨wb, hwb⟩ := Option.isSome_iff_exists.mp hfs
    simp only [migrate_workbook, log_event, hd, if_true, hwb, hu,
      Bool.false_eq_true, if_false]
    refine ⟨?_, by simp⟩
    simp only [stage_add]
    by_cases hc : rs.staged.contains workbook_id
    · rw [if_pos hc]
      simpa [List.elem_iff] using hc
    · rw [if_neg hc]
      simp

/-- Witness for the amended C2: a successful transfer of workbook 10 leaves
nothing staged, while an upload failure leaves workbook 10 staged with the
error naming it. -/
theorem claim_C2_amended_witness :
    (migrate_workbook
        ⟨[⟨1, "P", none⟩], [⟨10, "w1", 1⟩], fun _ => true, fun _ => true⟩
        ⟨⟨[], 0, 0, []⟩, []⟩ 10 7).1.staged = [] ∧
    (10 ∈ (migrate_workbook
        ⟨[⟨1, "P", none⟩], [⟨10, "w1", 1⟩], fun _ => true, fun _ => false⟩
        ⟨⟨[], 0, 0, []⟩, []⟩ 10 7).1.staged ∧
      (migrate_workbook
        ⟨[⟨1, "P", none⟩], [⟨10, "w1", 1⟩], fun _ => true, fun _ => false⟩
        ⟨⟨[], 0, 0, []⟩, []⟩ 10 7).2 = some (MigErr.uploadError 10)) :=
  ⟨(claim_C2_amended_cleanup_on_success_only _ _ 10 7).1 (by decide) (by decide),
   (claim_C2_amended_cleanup_on_success_only _ _ 10 7).2 (by decide) (by decide)
     (by decide)⟩

/-- C1 counterexample: the claim says a transfer failure on one workbook
does not prevent the other workbooks (same project or other projects) from
being migrated. It does: with workbooks 10, 11 in project 1 and workbook 12
in project 2, a download failure on workbook 10 propagates out of the loops,
and the run's only issued transfer operation is that failed download — no
workbook is ever published. -/
theorem claim_C1_counterexample :
    (migrate_site
        ⟨[⟨1, "P", none⟩, ⟨2, "Q", none⟩],
         [⟨10, "w1", 1⟩, ⟨11, "w2", 1⟩, ⟨12, "w3", 2⟩],
         fun n => !(n == 10), fun _ => true⟩
        ⟨[], 0, 0, []⟩).error = some (MigErr.downloadError 10) ∧
    (migrate_site
        ⟨[⟨1, "P", none⟩, ⟨2, "Q", none⟩],
         [⟨10, "w1", 1⟩, ⟨11, "w2", 1⟩, ⟨12, "w3", 2⟩],
         fun n => !(n == 10), fun _ => true⟩
        ⟨[], 0, 0, []⟩).run.target.events.filter is_transfer_event
      = [Event.download_workbook 10] := by
  exact ⟨by decide, by decide⟩

/-- C1 amended: a transfer failure on one workbook aborts the rest of the
migration — the exception propagates, so the loop over the remaining
workbooks of that project and the loop over the remaining (source, target)
mapping pairs return immediately with that error, never touching the
remaining items. -/
theorem claim_C1_amended_failure_aborts_rest (env : SourceEnv) :
    (∀ (rs rs' : RunState) (w : Workbook) (rest : List Workbook)
        (target_project_id : Nat) (err : MigErr),
      migrate_workbook env rs w.id target_project_id = (rs', some err) →
      migrate_workbooks_loop env rs (w :: rest) target_project_id
        = (rs', some err)) ∧
    (∀ (rs rs' : RunState) (source_id target_id : Nat)
        (rest : List (Nat × Nat)) (err : MigErr),
      migrate_project env rs source_id (some target_id) = (rs', some err) →
      migrate_projects_loop env rs ((source_id, target_id) :: rest)
        = (rs', some err)) := by
  constructor
  · intro rs rs' w rest target_project_id err hw
    simp only [migrate_workbooks_loop, hw]
  · intro rs rs' source_id target_id rest err hp
    simp only [migrate_projects_loop, hp]

/-- Witness for the amended C1: a failing first workbook makes both loops
return at once with the failure, skipping the rest. -/
theorem claim_C1_amended_witness :
    migrate_workbooks_loop ⟨[], [], fun _ => false, fun _ => false⟩
        ⟨⟨[], 0, 0, []⟩, []⟩ [⟨10, "w", 1⟩, ⟨11, "x", 1⟩] 7
      = (⟨⟨[], 0, 0, [Event.download_workbook 10]⟩, []⟩,
         some (MigErr.downloadError 10)) ∧
    migrate_projects_loop
        ⟨[⟨1, "P", none⟩], [⟨10, "w", 1⟩], fun _ => false, fun _ => false⟩
        ⟨⟨[], 0, 0, []⟩, []⟩ [(1, 5), (2, 6)]
      = (⟨⟨[], 0, 0, [Event.download_workbook 10]⟩, []⟩,
         some (MigErr.downloadError 10)) :=
  ⟨(claim_C1_amended_failure_aborts_rest _).1 _ _ ⟨10, "w", 1⟩ [⟨11, "x", 1⟩] 7
      (MigErr.downloadError 10) (by decide),
   (claim_C1_amended_failure_aborts_rest _).2 _ _ 1 5 [(2, 6)]
      (MigErr.downloadError 10) (by decide)⟩

/-! ## Phase ordering of a site migration -/

theorem create_not_transfer (e : Event) (h : is_create_event e = true) :
    is_transfer_event e = false := by
  cases e <;> simp [is_create_event, is_transfer_event] at h ⊢

theorem reach_events_create {a b : TargetState} (h : Reach a b) :
    ∃ s, b.events = a.events ++ s ∧ ∀ e ∈ s, is_create_event e = true := by
  induction h with
  | refl => exact ⟨[], by simp, by simp⟩
  | step s n p _ ih =>
      obtain ⟨t, ht, hall⟩ := ih
      cases hf : find_matching s n p with
      | some proj =>
          rw [ensure_found hf]
          exact ⟨t, ht, hall⟩
      | none =>
          rw [ensure_not_found hf]
          refine ⟨t ++ [Event.create_project s.nextId], ?_, ?_⟩
          · simp [ht]
          · intro e he
            rcases List.mem_append.mp he with hmem | hmem
            · exact hall e hmem
            · have he2 : e = Event.create_project s.nextId := by simpa using hmem
              rw [he2]
              rfl

theorem reach_migrate_site_hierarchy (sps : List SourceProject) (st : TargetState) :
    Reach st (migrate_site_hierarchy sps st).2.1 := by
  rw [migrate_site_hierarchy_def]
  exact reach_trans (reach_resolveRoots sps [] st) (reach_resolveLoop _ _ _ _)

theorem migrate_workbook_events (env : SourceEnv) (rs : RunState)
    (workbook_id target_project_id : Nat) :
    ∃ s, (migrate_workbook env rs workbook_id target_project_id).1.target.events
        = rs.target.events ++ s ∧ ∀ e ∈ s, is_create_event e = false := by
  by_cases hd : env.download_ok workbook_id = true
  · cases hfind : env.workbooks.find? (fun w => w.id == workbook_id) with
    | none =>
        refine ⟨[Event.download_workbook workbook_id], ?_, ?_⟩
        · simp [migrate_workbook, log_event, hd, hfind]
        · intro e he
          rw [List.mem_singleton] at he
          subst he
          rfl
    | some wb =>
        by_cases hu : env.upload_ok workbook_id = true
        · refine ⟨[Event.download_workbook workbook_id,
            Event.publish_workbook workbook_id target_project_id,
            Event.remove_file workbook_id], ?_, ?_⟩
          · simp [migrate_workbook, log_event, hd, hfind, hu]
          · intro e he
            rcases List.mem_cons.mp he with rfl | he
            · rfl
            rcases List.mem_cons.mp he with rfl | he
            · rfl
            rw [List.mem_singleton] at he
            subst he
            rfl
        · refine ⟨[Event.download_workbook workbook_id,
            Event.publish_workbook workbook_id target_project_id], ?_, ?_⟩
          · simp [migrate_workbook, log_event, hd, hfind, hu]
          · intro e he
            rcases List.mem_cons.mp he with rfl | he
            · rfl
            rw [List.mem_singleton] at he
            subst he
            rfl
  · refine ⟨[Event.download_workbook workbook_id], ?_, ?_⟩
    · simp [migrate_workbook, log_event, hd]
    · intro e he
      rw [List.mem_singleton] at he
      subst he
      rfl

theorem migrate_workbooks_loop_events (env : SourceEnv) :
    ∀ (wbs : List Workbook) (rs : RunState) (target_project_id : Nat),
      ∃ s, (migrate_workbooks_loop env rs wbs target_project_id).1.target.events
          = rs.target.events ++ s ∧ ∀ e ∈ s, is_create_event e = false
  | [], rs, _ => ⟨[], by simp [migrate_workbooks_loop], by simp⟩
  | wb :: rest, rs, target_project_id => by
      obtain ⟨s₁, hs₁, hall₁⟩ := migrate_workbook_events env rs wb.id target_project_id
      cases hm : migrate_workbook env rs wb.id target_project_id with
      | mk rs' e? =>
          rw [hm] at hs₁
          cases e? with
          | none =>
              obtain ⟨s₂, hs₂, hall₂⟩ :=
                migrate_workbooks_loop_events env rest rs' target_project_id
              refine ⟨s₁ ++ s₂, ?_, ?_⟩
              · simp only [migrate_workbooks_loop, hm]
                rw [hs₂]
                simp only at hs₁
                rw [hs₁, List.append_assoc]
              · intro e he
                rcases List.mem_append.mp he with h | h
                · exact hall₁ e h
                · exact hall₂ e h
          | some err =>
              refine ⟨s₁, ?_, hall₁⟩
              simp only [migrate_workbooks_loop, hm]
              simpa using hs₁

theorem migrate_project_events_given_target (env : SourceEnv) (rs : RunState)
    (source_id target_id : Nat) :
    ∃ s, (migrate_project env rs source_id (some target_id)).1.target.events
        = rs.target.events ++ s ∧ ∀ e ∈ s, is_create_event e = false := by
  unfold migrate_project
  cases hf : env.source_projects.find? (fun p => p.id == source_id) with
  | none => exact ⟨[], by simp, by simp⟩
  | some sp =>
      simp only
      exact migrate_workbooks_loop_events env _ rs target_id

theorem migrate_projects_loop_events (env : SourceEnv) :
    ∀ (pairs : List (Nat × Nat)) (rs : RunState),
      ∃ s, (migrate_projects_loop env rs pairs).1.target.events
          = rs.target.events ++ s ∧ ∀ e ∈ s, is_create_event e = false
  | [], rs => ⟨[], by simp [migrate_projects_loop], by simp⟩
  | (source_id, target_id) :: rest, rs => by
      obtain ⟨s₁, hs₁, hall₁⟩ :=
        migrate_project_events_given_target env rs source_id target_id
      cases hm : migrate_project env rs source_id (some target_id) with
      | mk rs' e? =>
          rw [hm] at hs₁
          cases e? with
          | none =>
              obtain ⟨s₂, hs₂, hall₂⟩ := migrate_projects_loop_events env rest rs'
              refine ⟨s₁ ++ s₂, ?_, ?_⟩
              · simp only [migrate_projects_loop, hm]
                rw [hs₂]
                simp only at hs₁
                rw [hs₁, List.append_assoc]
              · intro e he
                rcases List.mem_append.mp he with h | h
                · exact hall₁ e h
                · exact hall₂ e h
          | some err =>
              refine ⟨s₁, ?_, hall₁⟩
              simp only [migrate_projects_loop, hm]
              simpa using hs₁

theorem migrate_site_trace_split (env : SourceEnv) (st : TargetState) :
    ∃ a b, migrate_site_trace env st = st.events ++ a ++ b ∧
      (∀ e ∈ a, is_create_event e = true) ∧
      (∀ e ∈ b, is_create_event e = false) := by
  obtain ⟨a, ha, halla⟩ :=
    reach_events_create (reach_migrate_site_hierarchy env.source_projects st)
  obtain ⟨b, hb, hallb⟩ := migrate_projects_loop_events env
    (migrate_site_hierarchy env.source_projects st).1
    ⟨(migrate_site_hierarchy env.source_projects st).2.1, []⟩
  refine ⟨a, b, ?_, halla, hallb⟩
  unfold migrate_site_trace migrate_site
  simp only
  rw [hb]
  simp only
  rw [ha, List.append_assoc]

theorem get_append_mem_left {α : Type} (A B : List α) (i : Nat)
    (hia : i < A.length) (hi : i < (A ++ B).length) :
    (A ++ B).get ⟨i, hi⟩ ∈ A := by
  rw [get_append_left' A B i hia hi]
  exact A.get_mem _ _

theorem get_append_mem_right {α : Type} (A B : List α) (i : Nat)
    (hia : ¬i < A.length) (hi : i < (A ++ B).length) :
    (A ++ B).get ⟨i, hi⟩ ∈ B := by
  have hib : i - A.length < B.length := by
    simp only [List.length_append] at hi
    omega
  have hg : (A ++ B).get ⟨i, hi⟩ = B.get ⟨i - A.length, hib⟩ := by
    simp [List.getElem_append, hia]
  rw [hg]
  exact B.get_mem _ _

/-- C8: Phase ordering in a site migration. In the event trace of
`migrate_site` over a fresh trace, every project-creation call strictly
precedes every workbook download or upload: hierarchy resolution for the
whole site completes before any content transfer is issued. -/
theorem claim_C8_resolution_before_transfers (env : SourceEnv) (st : TargetState)
    (h0 : st.events = []) (i j : Nat)
    (hi : i < (migrate_site_trace env st).length)
    (hj : j < (migrate_site_trace env st).length)
    (hc : is_create_event ((migrate_site_trace env st).get ⟨i, hi⟩) = true)
    (ht : is_transfer_event ((migrate_site_trace env st).get ⟨j, hj⟩) = true) :
    i < j := by
  obtain ⟨a, b, heq, ha, hb⟩ := migrate_site_trace_split env st
  rw [h0, List.nil_append] at heq
  have key : ∀ (tr : List Event), tr = a ++ b →
      ∀ (hi' : i < tr.length) (hj' : j < tr.length),
      is_create_event (tr.get ⟨i, hi'⟩) = true →
      is_transfer_event (tr.get ⟨j, hj'⟩) = true → i < j := by
    intro tr htr hi' hj' hc' ht'
    subst htr
    by_cases hia : i < a.length
    · by_cases hja : j < a.length
      · have hmem := get_append_mem_left a b j hja hj'
        have hcr := ha _ hmem
        have hnt := create_not_transfer _ hcr
        rw [ht'] at hnt
        exact absurd hnt (by simp)
      · omega
    · have hmem := get_append_mem_right a b i hia hi'
      have hncr := hb _ hmem
      rw [hc'] at hncr
      exact absurd hncr (by simp)
  exact key _ heq hi hj hc ht

/-- Witness for C8 on the end-to-end scenario (forest Eng/Data with one
workbook): the creation event at index 0 precedes the download at index 2. -/
theorem claim_C8_witness : (0 : Nat) < 2 :=
  claim_C8_resolution_before_transfers
    ⟨[⟨1, "Eng", none⟩, ⟨2, "Data", some 1⟩], [⟨10, "Dash", 2⟩],
     fun _ => true, fun _ => true⟩
    ⟨[], 0, 0, []⟩ rfl 0 2 (by decide) (by decide) (by decide) (by decide)

/-- C9 counterexample: the claim says the per-run staging root no longer
exists after every run. After a pure listing run (`--list-sites`) the
`finally` block signs out only the source session and never calls
`cleanup()`, so the staging root created by `__init__` still exists. -/
theorem claim_C9_counterexample :
    (run_main ⟨[], [], fun _ => true, fun _ => true⟩ ⟨[], 0, 0, []⟩
        CliAction.listSites).1
      = { tempDirExists := true, sourceConnected := false,
          targetConnected := false } := by
  decide

/-- C9 amended: after a run of the tool the staging root still exists
exactly when the action was a read-only listing (for which only the source
session is signed out and `cleanup()` is skipped); after every migration
run — success, transfer failure, or the missing-argument exit — the staging
root is removed and both sessions are signed out. -/
theorem claim_C9_amended_cleanup (env : SourceEnv) (st : TargetState)
    (action : CliAction) :
    (run_main env st action).1.tempDirExists = is_listing_action action ∧
    (run_main env st action).1.sourceConnected = false ∧
    (run_main env st action).1.targetConnected = false := by
  cases action with
  | listSites =>
      simp [run_main, main_finally, main_connections, is_listing_action, cleanup]
  | listProjects =>
      simp [run_main, main_finally, main_connections, is_listing_action, cleanup]
  | listWorkbooks =>
      simp [run_main, main_finally, main_connections, is_listing_action, cleanup]
  | migrateWorkbook wid spid tpid =>
      cases spid <;>
        simp [run_main, main_finally, main_connections, is_listing_action, cleanup]
  | migrateProject pid tpid =>
      simp [run_main, main_finally, main_connections, is_listing_action, cleanup]
  | migrateSite =>
      simp [run_main, main_finally, main_connections, is_listing_action, cleanup]
